import Mathlib

/-!
Verification development for the chess rules engine `src/App/chess.py`
(class `Chess` with nested `Piece`, `Move`, `Board`).

Modelling conventions (shallow embedding):
* Python `str` values are modelled as `List Char` (`Str`); string
  concatenation is `++`, indexing `s[i]` is `sIdx s i` (with a dummy
  default for out-of-range access, where the source would raise).
* The 8x8 board (`Board.board`, a list of lists indexed `[r][c]`) is
  modelled as a total function `Int → Int → Nat`; every write in the
  source is bounds-guarded (`set_piece`), so squares outside `0..7` are
  never written and read as `Piece.NONE` in the model.  The source's
  Python negative-index wraparound can only be reached on inputs where
  the source would otherwise crash; no theorem below depends on it.
* Python `int` is `Int` (counters, clocks); piece codes are `Nat`.
* The memoised legal-move cache (`_moves_cache`) is omitted: it is keyed
  by the full position hash and only short-circuits recomputation, so it
  never changes any value returned by the functions modelled here.
* Mutating methods become functions `Position → ... → Position` (or
  pairs with their returned value), preserving the source's exact update
  order.
-/

/-- Python `str`, modelled as its list of characters. -/
abbrev Str := List Char

/-- Abbreviation turning a Lean string literal into a `Str`. -/
def strL (s : String) : Str := s.data

/-- `s[i]` for a Python string (source only indexes in range; the
default `' '` stands for the path where Python would raise). -/
def sIdx (s : Str) (i : Nat) : Char := s.getD i ' '

/-- ASCII lowercase of one character (Python `str.lower` on the
characters the engine uses). -/
def lowerCh (c : Char) : Char :=
  if 'A' ≤ c ∧ c ≤ 'Z' then Char.ofNat (c.toNat + 32) else c

/-- Python `str.lower()`. -/
def lowerStr (s : Str) : Str := s.map lowerCh

/-- Digit character of `n` (used for `str(n)` with `n ≤ 9`). -/
def digitCh (n : Nat) : Char := Char.ofNat (48 + n)

/-- Numeric value of a digit character (Python `int(ch)`). -/
def digitNat (c : Char) : Nat := c.toNat - 48

/-- Python `ch.isdigit()` for ASCII. -/
def isDigitCh (c : Char) : Bool := '0' ≤ c ∧ c ≤ '9'

/-- Decimal digits, on fuel (structural recursion so that proofs can
evaluate it); `fuel = n + 1` always suffices since `n / 10 < n`. -/
def natToStrAux : Nat → Nat → Str
  | 0, _ => []
  | fuel + 1, n =>
    if n < 10 then [digitCh n]
    else natToStrAux fuel (n / 10) ++ [digitCh (n % 10)]

/-- Decimal digits of a natural number (Python `str(n)` for `n ≥ 0`). -/
def natToStr (n : Nat) : Str := natToStrAux (n + 1) n

/-- Python `str(i)` for an `int`. -/
def intToStr (i : Int) : Str :=
  if i < 0 then '-' :: natToStr (-i).toNat else natToStr i.toNat

/-- Digits of a string as a natural number. -/
def parseNatDigits (s : Str) : Nat := s.foldl (fun a c => a * 10 + digitNat c) 0

/-- Python `int(s)` on the well-formed inputs the engine feeds it. -/
def parseInt (s : Str) : Int :=
  match s with
  | '-' :: rest => -(parseNatDigits rest : Int)
  | _ => (parseNatDigits s : Int)

/-- Python `s.split(sep)` for a single-character separator (keeps empty
pieces, exactly like Python's explicit-separator split). -/
def splitCh (sep : Char) : Str → List Str
  | [] => [[]]
  | c :: rest =>
    if c = sep then [] :: splitCh sep rest
    else
      match splitCh sep rest with
      | [] => [[c]]
      | h :: t => (c :: h) :: t

/-!  ## Piece model (`Chess.Piece`)

`NONE = 0`, white pawn..king `1..6`, black pawn..king `7..12`, as in the
source's numeric constants. -/

/-- `Chess.Piece.get_fen`: FEN character of a piece (`none` for the
source's empty-string result). -/
def pieceCh (p : Nat) : Option Char :=
  if p = 1 then some 'P' else if p = 2 then some 'R'
  else if p = 3 then some 'N' else if p = 4 then some 'B'
  else if p = 5 then some 'Q' else if p = 6 then some 'K'
  else if p = 7 then some 'p' else if p = 8 then some 'r'
  else if p = 9 then some 'n' else if p = 10 then some 'b'
  else if p = 11 then some 'q' else if p = 12 then some 'k'
  else none

/-- `load_fen`'s `piece_map.get(ch, NONE)`. -/
def pieceOfCh (c : Char) : Nat :=
  if c = 'P' then 1 else if c = 'N' then 3 else if c = 'B' then 4
  else if c = 'R' then 2 else if c = 'Q' then 5 else if c = 'K' then 6
  else if c = 'p' then 7 else if c = 'n' then 9 else if c = 'b' then 10
  else if c = 'r' then 8 else if c = 'q' then 11 else if c = 'k' then 12
  else 0

/-- `Chess.Piece.get_promotion_pieces`. -/
def promoPieces (isWhite : Bool) : List Nat :=
  if isWhite then [5, 2, 4, 3] else [11, 8, 10, 9]

/-!  ## Square codec (`Chess.FILES`, `Chess.RANKS`,
`coords_to_square`, `square_to_coords`) -/

/-- `Chess.FILES`. -/
def FILES : List Char := ['A', 'B', 'C', 'D', 'E', 'F', 'G', 'H']

/-- `Chess.RANKS`. -/
def RANKS : List Char := ['8', '7', '6', '5', '4', '3', '2', '1']

/-- `Chess.coords_to_square` (source indexes the two lists; calls are
always in range). -/
def coordsToSquare (r c : Int) : Str :=
  [FILES.getD c.toNat ' ', RANKS.getD r.toNat ' ']

/-- `Chess.square_to_coords`: `{'r': 8 - int(square[1]), 'c':
ord(square[0]) - 65}`. -/
def squareToCoords (s : Str) : Int × Int :=
  (8 - (digitNat (sIdx s 1) : Int), (sIdx s 0).toNat - 65)

/-!  ## Moves and state -/

/-- `Chess.Move` (promotion `None`/piece as in the source). -/
structure Move where
  fromSq : Str
  toSq : Str
  promotion : Option Nat := none
  deriving DecidableEq, Repr

/-- One entry of `move_history` (the dict pushed by `make_move`). -/
structure MoveRecord where
  move : Move
  fromPiece : Nat
  toPiece : Nat
  castlingMove : Bool
  epCapture : Bool
  prevEp : Option Str
  castlingRights : Nat
  halfmove : Int
  fullmove : Int
  promotion : Option Nat
  deriving Repr

/-- A latched `timeout_result` (`{winner, reason}`). -/
structure GameResult where
  winner : Str
  reason : Str
  deriving DecidableEq, Repr

/-- Result of `is_game_over` (`{over, reason, winner}`). -/
structure GameOver where
  over : Bool
  reason : Option Str
  winner : Option Str
  deriving DecidableEq, Repr

/-- Result of `make_move` (`{over, reason, winner, require_sync}`). -/
structure MoveResult where
  over : Bool
  reason : Option Str
  winner : Option Str
  requireSync : Bool
  deriving DecidableEq, Repr

/-- The board as a function; squares outside `0..7 × 0..7` read
`Piece.NONE` (never written: every source write is bounds-guarded). -/
abbrev IBoard := Int → Int → Nat

/-- Point update of a board function (one `self.board[r][c] = p`). -/
def bupd (b : IBoard) (r c : Int) (p : Nat) : IBoard :=
  fun r' c' => if r' = r ∧ c' = c then p else b r' c'

/-- The state of a `Chess.Board` instance. -/
structure Position where
  board : IBoard
  whiteToPlay : Bool
  castlingRights : Nat
  enPassant : Option Str
  halfmove : Int
  fullmove : Int
  kingWhite : Option (Int × Int)
  kingBlack : Option (Int × Int)
  positionHistory : List Str
  moveHistory : List MoveRecord
  whiteTime : Option Int
  blackTime : Option Int
  timersEnabled : Bool
  timeoutResult : Option GameResult

/-- Python `r &= ~m` on non-negative ints: clear in `r` the bits set in
`m` (bitwise `a ∧ ¬b`). -/
def clearBits (r m : Nat) : Nat := Nat.bitwise (fun a b => a && !b) r m

/-- Row-major list of the 64 board coordinates, in the source's
`for r in range(8): for c in range(8)` order. -/
def coordList : List (Int × Int) :=
  (List.range 8).flatMap fun r => (List.range 8).map fun c => ((r : Int), (c : Int))

/-- `Chess.Board.set_piece` (bounds-guarded write, maintaining the
king-position cache exactly as the source does). -/
def setPiece (p : Nat) (sq : Str) (pos : Position) : Position :=
  if sq = [] then pos
  else if 0 ≤ (squareToCoords sq).1 ∧ (squareToCoords sq).1 < 8 ∧
      0 ≤ (squareToCoords sq).2 ∧ (squareToCoords sq).2 < 8 then
    { pos with
      board := bupd pos.board (squareToCoords sq).1 (squareToCoords sq).2 p
      kingWhite := if p = 6 then some (squareToCoords sq) else pos.kingWhite
      kingBlack := if p = 12 then some (squareToCoords sq) else pos.kingBlack }
  else pos

/-- `Chess.Board.get_piece` (bounds-guarded read). -/
def getPiece (pos : Position) (sq : Str) : Nat :=
  if sq = [] then 0
  else
    let rc := squareToCoords sq
    if 0 ≤ rc.1 ∧ rc.1 < 8 ∧ 0 ≤ rc.2 ∧ rc.2 < 8 then pos.board rc.1 rc.2
    else 0

/-- `Chess.Board._get_position_hash`. -/
def positionHash (pos : Position) : Str :=
  (if pos.whiteToPlay then ['w'] else ['b'])
  ++ '|' :: natToStr pos.castlingRights
  ++ '|' :: (match pos.enPassant with
             | some s => if s = [] then ['-'] else s
             | none => ['-'])
  ++ '|' :: (List.range 8).flatMap (fun r =>
      ((List.range 8).flatMap fun c =>
        natToStr (pos.board (r : Int) (c : Int))
        ++ if c < 7 then [','] else [])
      ++ if r < 7 then ['/'] else [])

/-!  ## FEN codec (`load_fen` / `get_fen`) -/

/-- One rank of `load_fen`'s placement parse: digits skip (leaving
`NONE`), letters place `piece_map.get(ch, NONE)`. -/
def rowCells : Str → List Nat
  | [] => []
  | ch :: rest =>
    if isDigitCh ch then List.replicate (digitNat ch) 0 ++ rowCells rest
    else pieceOfCh ch :: rowCells rest

/-- The board function described by a parsed FEN placement. -/
def boardOfRows (rows : List Str) : IBoard :=
  fun r c =>
    if 0 ≤ r ∧ r < 8 ∧ 0 ≤ c ∧ c < 8 then
      (rowCells (rows.getD r.toNat [])).getD c.toNat 0
    else 0

/-- `_update_king_positions`: last (row-major) king square of colour
`k`, or `none`. -/
def findKing (bd : IBoard) (k : Nat) : Option (Int × Int) :=
  (coordList.filter fun rc => bd rc.1 rc.2 = k).getLast?

/-- `Chess.Board.load_fen` on a fresh board (the `Board(fen)`
constructor: empty histories, no timers, then `load_fen`). -/
def loadFen (fen : Str) : Position :=
  let parts := splitCh ' ' fen
  let placement := parts.getD 0 []
  let activeColor := parts.getD 1 []
  let castling := parts.getD 2 []
  let enp := parts.getD 3 []
  let cr :=
    (if 'K' ∈ castling then 1 else 0) |||
    (if 'Q' ∈ castling then 2 else 0) |||
    (if 'k' ∈ castling then 4 else 0) |||
    (if 'q' ∈ castling then 8 else 0)
  let bd := boardOfRows (splitCh '/' placement)
  let pos0 : Position :=
    { board := bd
      whiteToPlay := activeColor = ['w']
      castlingRights := cr
      enPassant := if enp = ['-'] then none else some enp
      halfmove := if 4 < parts.length then parseInt (parts.getD 4 []) else 0
      fullmove := if 5 < parts.length then parseInt (parts.getD 5 []) else 1
      kingWhite := findKing bd 6
      kingBlack := findKing bd 12
      positionHistory := []
      moveHistory := []
      whiteTime := none
      blackTime := none
      timersEnabled := false
      timeoutResult := none }
  { pos0 with positionHistory := [positionHash pos0] }

/-- `get_fen`'s serialization of one rank, with the pending-empty-count
accumulator of the source's inner loop. -/
def serRow : List Nat → Nat → Str
  | [], e => if 0 < e then [digitCh e] else []
  | p :: rest, e =>
    match pieceCh p with
    | none => serRow rest (e + 1)
    | some ch => (if 0 < e then [digitCh e] else []) ++ ch :: serRow rest 0

/-- Row `r` of the board as the list of its 8 piece codes (the inner
`for c in range(8)` loop of `get_fen`, unrolled). -/
def rowOf (pos : Position) (r : Nat) : List Nat :=
  [pos.board r 0, pos.board r 1, pos.board r 2, pos.board r 3,
   pos.board r 4, pos.board r 5, pos.board r 6, pos.board r 7]

/-- The castling field of `get_fen` (`'-'` when no rights). -/
def castlingStr (cr : Nat) : Str :=
  let s := (if cr &&& 1 ≠ 0 then ['K'] else [])
        ++ (if cr &&& 2 ≠ 0 then ['Q'] else [])
        ++ (if cr &&& 4 ≠ 0 then ['k'] else [])
        ++ (if cr &&& 8 ≠ 0 then ['q'] else [])
  if s = [] then ['-'] else s

/-- The en-passant field of `get_fen`
(`self.en_passant.lower() if self.en_passant else '-'`). -/
def epStr : Option Str → Str
  | some s => if s = [] then ['-'] else lowerStr s
  | none => ['-']

/-- The piece-placement field of `get_fen` (ranks serialized with the
empty-run accumulator, separated by `'/'`). -/
def placementStr (pos : Position) : Str :=
  (List.range 8).flatMap fun r =>
    serRow (rowOf pos r) 0 ++ if r < 7 then ['/'] else []

/-- `Chess.Board.get_fen`. -/
def getFen (pos : Position) : Str :=
  placementStr pos
  ++ ' ' :: (if pos.whiteToPlay then ['w'] else ['b'])
  ++ ' ' :: castlingStr pos.castlingRights
  ++ ' ' :: epStr pos.enPassant
  ++ ' ' :: intToStr pos.halfmove
  ++ ' ' :: intToStr pos.fullmove

/-!  ## Attack detector (`_is_square_attacked`) -/

/-- Knight offsets, in source order. -/
def knightOffs : List (Int × Int) :=
  [(-2, -1), (-2, 1), (-1, -2), (-1, 2), (1, -2), (1, 2), (2, -1), (2, 1)]

/-- King offsets, in source order. -/
def kingOffs : List (Int × Int) :=
  [(-1, -1), (-1, 0), (-1, 1), (0, -1), (0, 1), (1, -1), (1, 0), (1, 1)]

/-- The 8 sliding directions with their `is_rook_dir = i < 4` flag, in
the source's enumeration order. -/
def slideDirs : List (Int × Int × Bool) :=
  [(0, 1, true), (0, -1, true), (1, 0, true), (-1, 0, true),
   (1, 1, false), (1, -1, false), (-1, 1, false), (-1, -1, false)]

/-- One ray of the sliding part of `_is_square_attacked`: the first
non-empty square stops the ray; it attacks iff it holds an attacker
whose movement covers the direction.  `fuel = 8` bounds the source's
`while` loop (at most 7 in-board steps from an in-board start). -/
def rayAtt (bd : IBoard) (aS aE qv rv bv : Nat) (isRookDir : Bool)
    (dr dc : Int) : Nat → Int → Int → Bool
  | 0, _, _ => false
  | fuel + 1, nr, nc =>
    if 0 ≤ nr ∧ nr < 8 ∧ 0 ≤ nc ∧ nc < 8 then
      let p := bd nr nc
      if p ≠ 0 then
        decide (aS ≤ p ∧ p ≤ aE) &&
          (p == qv || (isRookDir && p == rv) || (!isRookDir && p == bv))
      else rayAtt bd aS aE qv rv bv isRookDir dr dc fuel (nr + dr) (nc + dc)
    else false

/-- `Chess.Board._is_square_attacked` (board-level; the source reads
only `self.board`). -/
def isSquareAttackedB (bd : IBoard) (r c : Int) (byWhite : Bool) : Bool :=
  let aS : Nat := if byWhite then 1 else 7
  let aE : Nat := if byWhite then 6 else 12
  let pawnR := r + (if byWhite then 1 else -1)
  (decide (0 ≤ pawnR ∧ pawnR < 8) &&
    ([(-1 : Int), 1].any fun dc =>
      let pawnC := c + dc
      decide (0 ≤ pawnC ∧ pawnC < 8) &&
        (bd pawnR pawnC == if byWhite then 1 else 7)))
  || (knightOffs.any fun o =>
      let nr := r + o.1; let nc := c + o.2
      decide (0 ≤ nr ∧ nr < 8 ∧ 0 ≤ nc ∧ nc < 8) &&
        (bd nr nc == if byWhite then 3 else 9))
  || (slideDirs.any fun d =>
      rayAtt bd aS aE (if byWhite then 5 else 11) (if byWhite then 2 else 8)
        (if byWhite then 4 else 10) d.2.2 d.1 d.2.1 8 (r + d.1) (c + d.2.1))
  || (kingOffs.any fun o =>
      let nr := r + o.1; let nc := c + o.2
      decide (0 ≤ nr ∧ nr < 8 ∧ 0 ≤ nc ∧ nc < 8) &&
        (bd nr nc == if byWhite then 6 else 12))

/-- `Chess.Board.is_king_attacked` (reads the king-position cache;
`False` when the cache is empty, as in the source). -/
def isKingAttacked (pos : Position) (isWhite : Bool) : Bool :=
  match (if isWhite then pos.kingWhite else pos.kingBlack) with
  | none => false
  | some kp => isSquareAttackedB pos.board kp.1 kp.2 (!isWhite)

/-!  ## Move generator -/

/-- `_generate_pawn_moves`, in the source's append order: pushes (with
double push), the two diagonal captures, then the en-passant move. -/
def pawnGen (pos : Position) (r c : Int) (fromSq : Str) (isWhite : Bool) :
    List Move :=
  let dir : Int := if isWhite then -1 else 1
  let startRank : Int := if isWhite then 6 else 1
  let promRank : Int := if isWhite then 0 else 7
  let eS : Nat := if isWhite then 7 else 1
  let eE : Nat := if isWhite then 12 else 6
  let nr := r + dir
  let pushes :=
    if 0 ≤ nr ∧ nr < 8 ∧ pos.board nr c = 0 then
      let tsq := coordsToSquare nr c
      if nr = promRank then (promoPieces isWhite).map fun pp => ⟨fromSq, tsq, some pp⟩
      else ⟨fromSq, tsq, none⟩ ::
        (if r = startRank ∧ pos.board (r + 2 * dir) c = 0 then
          [⟨fromSq, coordsToSquare (r + 2 * dir) c, none⟩] else [])
    else []
  let caps := [(-1 : Int), 1].flatMap fun dc =>
    let nc := c + dc
    if 0 ≤ nr ∧ nr < 8 ∧ 0 ≤ nc ∧ nc < 8 then
      let tgt := pos.board nr nc
      if eS ≤ tgt ∧ tgt ≤ eE then
        let tsq := coordsToSquare nr nc
        if nr = promRank then (promoPieces isWhite).map fun pp => ⟨fromSq, tsq, some pp⟩
        else [⟨fromSq, tsq, none⟩]
      else []
    else []
  let eps :=
    match pos.enPassant with
    | some s =>
      if s ≠ [] ∧ r = (if isWhite then 3 else 4) ∧ |c - (squareToCoords s).2| = 1
      then [⟨fromSq, s, none⟩] else []
    | none => []
  pushes ++ caps ++ eps

/-- One ray of `_generate_sliding_moves` (same fuel bound as `rayAtt`).
A square holding a value in neither colour range neither stops nor
yields a move, exactly like the source's `elif` chain. -/
def rayMoves (bd : IBoard) (fromSq : Str) (fS fE eS eE : Nat) (dr dc : Int) :
    Nat → Int → Int → List Move
  | 0, _, _ => []
  | fuel + 1, nr, nc =>
    if 0 ≤ nr ∧ nr < 8 ∧ 0 ≤ nc ∧ nc < 8 then
      let t := bd nr nc
      if t = 0 then
        ⟨fromSq, coordsToSquare nr nc, none⟩ ::
          rayMoves bd fromSq fS fE eS eE dr dc fuel (nr + dr) (nc + dc)
      else if eS ≤ t ∧ t ≤ eE then [⟨fromSq, coordsToSquare nr nc, none⟩]
      else if fS ≤ t ∧ t ≤ fE then []
      else rayMoves bd fromSq fS fE eS eE dr dc fuel (nr + dr) (nc + dc)
    else []

/-- `_generate_sliding_moves` over a direction list. -/
def slidingGen (pos : Position) (r c : Int) (fromSq : Str) (isWhite : Bool)
    (dirs : List (Int × Int)) : List Move :=
  let fS : Nat := if isWhite then 1 else 7
  let fE : Nat := if isWhite then 6 else 12
  let eS : Nat := if isWhite then 7 else 1
  let eE : Nat := if isWhite then 12 else 6
  dirs.flatMap fun d =>
    rayMoves pos.board fromSq fS fE eS eE d.1 d.2 8 (r + d.1) (c + d.2)

/-- The shared fixed-offset loop of `_generate_knight_moves` and
`_generate_king_moves`: a destination is included unless off-board or
occupied by a friendly piece. -/
def stepGen (pos : Position) (r c : Int) (fromSq : Str) (isWhite : Bool)
    (offs : List (Int × Int)) : List Move :=
  let fS : Nat := if isWhite then 1 else 7
  let fE : Nat := if isWhite then 6 else 12
  offs.flatMap fun o =>
    let nr := r + o.1; let nc := c + o.2
    if 0 ≤ nr ∧ nr < 8 ∧ 0 ≤ nc ∧ nc < 8 then
      let t := pos.board nr nc
      if t = 0 ∨ ¬(fS ≤ t ∧ t ≤ fE) then [⟨fromSq, coordsToSquare nr nc, none⟩]
      else []
    else []

/-- `_generate_knight_moves`. -/
def knightGen (pos : Position) (r c : Int) (fromSq : Str) (isWhite : Bool) :
    List Move :=
  stepGen pos r c fromSq isWhite knightOffs

/-- `_generate_king_moves`: the 8 offset moves, then the castling
moves, with the source's exact guards. -/
def kingGen (pos : Position) (r c : Int) (fromSq : Str) (isWhite : Bool) :
    List Move :=
  stepGen pos r c fromSq isWhite kingOffs
  ++ (if isWhite ∧ r = 7 ∧ c = 4 then
        (if pos.castlingRights &&& 1 ≠ 0 ∧ isKingAttacked pos true = false ∧
            pos.board 7 5 = 0 ∧ pos.board 7 6 = 0 ∧
            isSquareAttackedB pos.board 7 5 false = false ∧
            isSquareAttackedB pos.board 7 6 false = false then
          [⟨fromSq, strL "G1", none⟩] else [])
        ++ (if pos.castlingRights &&& 2 ≠ 0 ∧ isKingAttacked pos true = false ∧
            pos.board 7 3 = 0 ∧ pos.board 7 2 = 0 ∧ pos.board 7 1 = 0 ∧
            isSquareAttackedB pos.board 7 3 false = false ∧
            isSquareAttackedB pos.board 7 2 false = false then
          [⟨fromSq, strL "C1", none⟩] else [])
      else if ¬isWhite ∧ r = 0 ∧ c = 4 then
        (if pos.castlingRights &&& 4 ≠ 0 ∧ isKingAttacked pos false = false ∧
            pos.board 0 5 = 0 ∧ pos.board 0 6 = 0 ∧
            isSquareAttackedB pos.board 0 5 true = false ∧
            isSquareAttackedB pos.board 0 6 true = false then
          [⟨fromSq, strL "G8", none⟩] else [])
        ++ (if pos.castlingRights &&& 8 ≠ 0 ∧ isKingAttacked pos false = false ∧
            pos.board 0 3 = 0 ∧ pos.board 0 2 = 0 ∧ pos.board 0 1 = 0 ∧
            isSquareAttackedB pos.board 0 3 true = false ∧
            isSquareAttackedB pos.board 0 2 true = false then
          [⟨fromSq, strL "C8", none⟩] else [])
      else [])

/-- `_generate_moves_for_piece`. -/
def genForPiece (pos : Position) (r c : Int) (p : Nat) : List Move :=
  let fromSq := coordsToSquare r c
  let isWhite := p ≤ 6
  if p = 1 ∨ p = 7 then pawnGen pos r c fromSq isWhite
  else if p = 2 ∨ p = 8 then slidingGen pos r c fromSq isWhite [(0,1),(0,-1),(1,0),(-1,0)]
  else if p = 3 ∨ p = 9 then knightGen pos r c fromSq isWhite
  else if p = 4 ∨ p = 10 then slidingGen pos r c fromSq isWhite [(1,1),(1,-1),(-1,1),(-1,-1)]
  else if p = 5 ∨ p = 11 then
    slidingGen pos r c fromSq isWhite [(0,1),(0,-1),(1,0),(-1,0),(1,1),(1,-1),(-1,1),(-1,-1)]
  else if p = 6 ∨ p = 12 then kingGen pos r c fromSq isWhite
  else []

/-- The pseudo-legal move list: the square scan of `get_moves` before
legality filtering, in row-major order. -/
def pseudoMoves (pos : Position) : List Move :=
  coordList.flatMap fun rc =>
    let p := pos.board rc.1 rc.2
    if p ≠ 0 ∧ (decide (p ≤ 6) = pos.whiteToPlay) then genForPiece pos rc.1 rc.2 p
    else []

/-- The board of `_is_move_legal`'s two-square probe: clear the source
square, then place the moving piece on the destination. -/
def simBoard (pos : Position) (m : Move) : IBoard :=
  let f := squareToCoords m.fromSq
  let t := squareToCoords m.toSq
  bupd (bupd pos.board f.1 f.2 0) t.1 t.2 (pos.board f.1 f.2)

/-- The king square `_is_move_legal` tests: the destination if the king
itself moved, else the cached king position. -/
def simKing (pos : Position) (kp : Option (Int × Int)) (m : Move) :
    Option (Int × Int) :=
  let f := squareToCoords m.fromSq
  if pos.board f.1 f.2 = 6 ∨ pos.board f.1 f.2 = 12 then some (squareToCoords m.toSq)
  else kp

/-- `Chess.Board._is_move_legal`.  When the cache holds no king square
and a non-king piece moves the source raises; that unreachable path is
modelled as `true`. -/
def isMoveLegalB (pos : Position) (kp : Option (Int × Int)) (m : Move) : Bool :=
  match simKing pos kp m with
  | some k => !(isSquareAttackedB (simBoard pos m) k.1 k.2 (!pos.whiteToPlay))
  | none => true

/-- `Chess.Board._filter_legal_moves`. -/
def filterLegal (pos : Position) (moves : List Move) : List Move :=
  let kp := if pos.whiteToPlay then pos.kingWhite else pos.kingBlack
  moves.filter (isMoveLegalB pos kp)

/-- `Chess.Board.get_moves` (the memo cache is omitted, see header). -/
def getMoves (pos : Position) : List Move :=
  filterLegal pos (pseudoMoves pos)

/-!  ## Terminal-state evaluator -/

/-- `Chess.Board.is_insufficient_material`. -/
def isInsufficientMaterial (pos : Position) : Bool :=
  let wOther := coordList.countP fun rc =>
    let p := pos.board rc.1 rc.2; p == 1 || p == 2 || p == 5
  let bOther := coordList.countP fun rc =>
    let p := pos.board rc.1 rc.2; p == 7 || p == 8 || p == 11
  let wB := coordList.countP fun rc => pos.board rc.1 rc.2 == 4
  let bB := coordList.countP fun rc => pos.board rc.1 rc.2 == 10
  let wN := coordList.countP fun rc => pos.board rc.1 rc.2 == 3
  let bN := coordList.countP fun rc => pos.board rc.1 rc.2 == 9
  if wOther = 0 ∧ bOther = 0 ∧ wB = 0 ∧ bB = 0 ∧ wN = 0 ∧ bN = 0 then true
  else if wOther = 0 ∧ bOther = 0 ∧
      ((wB = 1 ∧ wN = 0 ∧ bB = 0 ∧ bN = 0) ∨ (bB = 1 ∧ bN = 0 ∧ wB = 0 ∧ wN = 0)) then
    true
  else if wOther = 0 ∧ bOther = 0 ∧
      ((wN = 1 ∧ wB = 0 ∧ bB = 0 ∧ bN = 0) ∨ (bN = 1 ∧ bB = 0 ∧ wB = 0 ∧ wN = 0)) then
    true
  else if wOther = 0 ∧ bOther = 0 ∧ wN = 0 ∧ bN = 0 ∧ 1 < wB + bB then
    let colors := (coordList.filter fun rc =>
      pos.board rc.1 rc.2 == 4 || pos.board rc.1 rc.2 == 10).map
        fun rc => (rc.1 + rc.2) % 2
    match colors with
    | [] => false
    | h :: _ => colors.all (· == h)
  else false

/-- `Chess.Board.is_threefold_repetition`. -/
def isThreefoldRepetition (pos : Position) : Bool :=
  if pos.positionHistory.length < 4 then false
  else 3 ≤ pos.positionHistory.countP (· == positionHash pos)

/-- The chain of checks of `is_game_over` after the timeout latch. -/
def gameOverRest (pos : Position) : GameOver :=
  if 100 ≤ pos.halfmove then ⟨true, some (strL "50-move rule"), some (strL "draw")⟩
  else if isInsufficientMaterial pos then
    ⟨true, some (strL "insufficient material"), some (strL "draw")⟩
  else if isThreefoldRepetition pos then
    ⟨true, some (strL "threefold repetition"), some (strL "draw")⟩
  else if getMoves pos = [] then
    if isKingAttacked pos pos.whiteToPlay then
      ⟨true, some (strL "checkmate"),
        some (if pos.whiteToPlay then strL "black" else strL "white")⟩
    else ⟨true, some (strL "stalemate"), some (strL "draw")⟩
  else ⟨false, none, none⟩

/-- `Chess.Board.is_game_over`. -/
def isGameOver (pos : Position) : GameOver :=
  match pos.timeoutResult, pos.timersEnabled with
  | some tr, true => ⟨true, some tr.reason, some tr.winner⟩
  | _, _ => gameOverRest pos

/-!  ## Move applier / undoer -/

/-- The castling block of `make_move` (relocates king and rook when a
castling move with the matching rights bit is played; always clears the
mover's two rights bits when the king leaves its home square). -/
def castlePhase (pos : Position) (f : Nat) (mv : Move) : Position × Bool :=
  if f = 6 ∧ mv.fromSq = strL "E1" then
    let pr :=
      if mv.toSq = strL "G1" ∧ pos.castlingRights &&& 1 ≠ 0 then
        (setPiece 0 (strL "H1") (setPiece 2 (strL "F1")
          (setPiece 0 (strL "E1") (setPiece 6 (strL "G1") pos))), true)
      else if mv.toSq = strL "C1" ∧ pos.castlingRights &&& 2 ≠ 0 then
        (setPiece 0 (strL "A1") (setPiece 2 (strL "D1")
          (setPiece 0 (strL "E1") (setPiece 6 (strL "C1") pos))), true)
      else (pos, false)
    ({ pr.1 with castlingRights := clearBits pr.1.castlingRights 3 }, pr.2)
  else if f = 12 ∧ mv.fromSq = strL "E8" then
    let pr :=
      if mv.toSq = strL "G8" ∧ pos.castlingRights &&& 4 ≠ 0 then
        (setPiece 0 (strL "H8") (setPiece 8 (strL "F8")
          (setPiece 0 (strL "E8") (setPiece 12 (strL "G8") pos))), true)
      else if mv.toSq = strL "C8" ∧ pos.castlingRights &&& 8 ≠ 0 then
        (setPiece 0 (strL "A8") (setPiece 8 (strL "D8")
          (setPiece 0 (strL "E8") (setPiece 12 (strL "C8") pos))), true)
      else (pos, false)
    ({ pr.1 with castlingRights := clearBits pr.1.castlingRights 12 }, pr.2)
  else (pos, false)

/-- The rook-move / rook-capture rights-clearing block of `make_move`. -/
def rookRightsPhase (pos : Position) (f t : Nat) (mv : Move) : Position :=
  let cr := pos.castlingRights
  let cr := if f = 2 ∧ mv.fromSq = strL "A1" then clearBits cr 2 else cr
  let cr := if f = 2 ∧ mv.fromSq = strL "H1" then clearBits cr 1 else cr
  let cr := if f = 8 ∧ mv.fromSq = strL "A8" then clearBits cr 8 else cr
  let cr := if f = 8 ∧ mv.fromSq = strL "H8" then clearBits cr 4 else cr
  let cr := if mv.toSq = strL "A1" ∧ t = 2 then clearBits cr 2 else cr
  let cr := if mv.toSq = strL "H1" ∧ t = 2 then clearBits cr 1 else cr
  let cr := if mv.toSq = strL "A8" ∧ t = 8 then clearBits cr 8 else cr
  let cr := if mv.toSq = strL "H8" ∧ t = 8 then clearBits cr 4 else cr
  { pos with castlingRights := cr }

/-- The en-passant block of `make_move`: clear the target, set it on a
double push, and remove the passed pawn on an en-passant capture. -/
def epPhase (pos : Position) (f : Nat) (mv : Move) (prevEp : Option Str) :
    Position × Bool :=
  let pos := { pos with enPassant := none }
  if f = 1 then
    let pos :=
      if sIdx mv.fromSq 1 = '2' ∧ sIdx mv.toSq 1 = '4' then
        { pos with enPassant := some [sIdx mv.fromSq 0, '3'] }
      else pos
    if prevEp = some mv.toSq ∧ sIdx mv.fromSq 0 ≠ sIdx mv.toSq 0 then
      (setPiece 0 [sIdx mv.toSq 0, digitCh (digitNat (sIdx mv.toSq 1) - 1)] pos, true)
    else (pos, false)
  else if f = 7 then
    let pos :=
      if sIdx mv.fromSq 1 = '7' ∧ sIdx mv.toSq 1 = '5' then
        { pos with enPassant := some [sIdx mv.fromSq 0, '6'] }
      else pos
    if prevEp = some mv.toSq ∧ sIdx mv.fromSq 0 ≠ sIdx mv.toSq 0 then
      (setPiece 0 [sIdx mv.toSq 0, digitCh (digitNat (sIdx mv.toSq 1) + 1)] pos, true)
    else (pos, false)
  else (pos, false)

/-- Python `move.promotion or DEFAULT` (`None` and `Piece.NONE` are
both falsy). -/
def promoOr (p : Option Nat) (d : Nat) : Nat :=
  match p with
  | some v => if v = 0 then d else v
  | none => d

/-- The promotion piece of `make_move` (`none` when not a promotion). -/
def promoPhase (f : Nat) (mv : Move) : Option Nat :=
  if f = 1 ∧ sIdx mv.toSq 1 = '8' then some (promoOr mv.promotion 5)
  else if f = 7 ∧ sIdx mv.toSq 1 = '1' then some (promoOr mv.promotion 11)
  else none

/-- The board-mutation part of `make_move` (castling, rights clearing,
en passant, and the standard two-square update unless castling already
moved the pieces), returning `(state, castlingMove, epCapture,
promotion)`. -/
def boardPhase (pos : Position) (mv : Move) : Position × Bool × Bool × Option Nat :=
  let f := getPiece pos mv.fromSq
  let t := getPiece pos mv.toSq
  let cp := castlePhase pos f mv
  let p2 := rookRightsPhase cp.1 f t mv
  let ep := epPhase p2 f mv pos.enPassant
  let promotion := promoPhase f mv
  let p4 :=
    if cp.2 then ep.1
    else
      match promotion with
      | some pp => setPiece 0 mv.fromSq (setPiece pp mv.toSq ep.1)
      | none => setPiece 0 mv.fromSq (setPiece f mv.toSq ep.1)
  (p4, cp.2, ep.2, promotion)

/-- The body of `make_move` after its two early returns (the part that
actually mutates the position). -/
def applyMove (pos : Position) (mv : Move) : MoveResult × Position :=
  let f := getPiece pos mv.fromSq
  let t := getPiece pos mv.toSq
  let bp := boardPhase pos mv
  let requireSync := bp.2.1 || bp.2.2.1 || bp.2.2.2.isSome
  let rcd : MoveRecord :=
    ⟨⟨mv.fromSq, mv.toSq, none⟩, f, t, bp.2.1, bp.2.2.1, pos.enPassant,
      pos.castlingRights, pos.halfmove, pos.fullmove, bp.2.2.2⟩
  let p5 := { bp.1 with
    moveHistory := bp.1.moveHistory ++ [rcd]
    halfmove := if f = 1 ∨ f = 7 ∨ t ≠ 0 ∨ bp.2.2.1 = true then 0 else pos.halfmove + 1
    fullmove := if pos.whiteToPlay then pos.fullmove else pos.fullmove + 1
    whiteToPlay := !pos.whiteToPlay }
  let p6 := { p5 with positionHistory := p5.positionHistory ++ [positionHash p5] }
  let fin := isGameOver p6
  (if fin.over then ⟨fin.over, fin.reason, fin.winner, requireSync⟩
   else ⟨false, none, none, requireSync⟩, p6)

/-- `Chess.Board.make_move`. -/
def makeMove (pos : Position) (mv : Move) (checkLegal : Bool) :
    MoveResult × Position :=
  let ig := isGameOver pos
  if ig.over then (⟨ig.over, ig.reason, ig.winner, false⟩, pos)
  else if checkLegal &&
      !((getMoves pos).any fun m => m.fromSq == mv.fromSq && m.toSq == mv.toSq) then
    (⟨true, some (strL "illegal move"),
      some (if pos.whiteToPlay then strL "black" else strL "white"), false⟩, pos)
  else applyMove pos mv

/-- The board-restoration writes of `undo_move`: the two touched
squares, the castled rook, and the en-passant-captured pawn (the
source's promotion branch performs the same two writes as its else
branch; they are merged here). -/
def undoBoardPhase (pos : Position) (last : MoveRecord) : Position :=
  let pos := setPiece last.toPiece last.move.toSq
    (setPiece last.fromPiece last.move.fromSq pos)
  let pos :=
    if last.castlingMove then
      if last.move.fromSq = strL "E1" ∧ last.move.toSq = strL "G1" then
        setPiece 0 (strL "F1") (setPiece 2 (strL "H1") pos)
      else if last.move.fromSq = strL "E1" ∧ last.move.toSq = strL "C1" then
        setPiece 0 (strL "D1") (setPiece 2 (strL "A1") pos)
      else if last.move.fromSq = strL "E8" ∧ last.move.toSq = strL "G8" then
        setPiece 0 (strL "F8") (setPiece 8 (strL "H8") pos)
      else if last.move.fromSq = strL "E8" ∧ last.move.toSq = strL "C8" then
        setPiece 0 (strL "D8") (setPiece 8 (strL "A8") pos)
      else pos
    else pos
  if last.epCapture then
    if last.fromPiece = 1 then
      setPiece 7 [sIdx last.move.toSq 0, digitCh (digitNat (sIdx last.move.toSq 1) - 1)] pos
    else if last.fromPiece = 7 then
      setPiece 1 [sIdx last.move.toSq 0, digitCh (digitNat (sIdx last.move.toSq 1) + 1)] pos
    else pos
  else pos

/-- `Chess.Board.undo_move`. -/
def undoMove (pos : Position) : Position :=
  match pos.moveHistory.getLast? with
  | none => pos
  | some last =>
    let p1 := undoBoardPhase { pos with moveHistory := pos.moveHistory.dropLast } last
    { p1 with
      castlingRights := last.castlingRights
      enPassant := last.prevEp
      halfmove := last.halfmove
      fullmove := last.fullmove
      whiteToPlay := !p1.whiteToPlay
      positionHistory := p1.positionHistory.dropLast }

/-!  ## Clock subsystem -/

/-- `Chess.Board.set_timers`. -/
def setTimers (pos : Position) (whiteMs blackMs : Option Int) : Position :=
  { pos with
    whiteTime := whiteMs
    blackTime := blackMs
    timersEnabled := whiteMs.isSome || blackMs.isSome
    timeoutResult := none }

/-- `Chess.Board.decrement_current_player_timer` (returned flag paired
with the updated state). -/
def decrementTimer (pos : Position) (ms : Int) : Bool × Position :=
  if !pos.timersEnabled then (false, pos)
  else if pos.whiteToPlay then
    match pos.whiteTime with
    | some w =>
      let w := w - ms
      if w ≤ 0 then
        (true, { pos with whiteTime := some 0,
                          timeoutResult := some ⟨strL "black", strL "timeout"⟩ })
      else (false, { pos with whiteTime := some w })
    | none => (false, pos)
  else
    match pos.blackTime with
    | some b =>
      let b := b - ms
      if b ≤ 0 then
        (true, { pos with blackTime := some 0,
                          timeoutResult := some ⟨strL "white", strL "timeout"⟩ })
      else (false, { pos with blackTime := some b })
    | none => (false, pos)

/-!  ## Helper lemmas -/

theorem setPiece_cases (p : Nat) (sq : Str) (pos : Position) :
    setPiece p sq pos =
      { pos with
        board := (setPiece p sq pos).board
        kingWhite := (setPiece p sq pos).kingWhite
        kingBlack := (setPiece p sq pos).kingBlack } := by
  unfold setPiece
  by_cases h1 : sq = []
  · rw [if_pos h1]
  · rw [if_neg h1]
    by_cases h2 : 0 ≤ (squareToCoords sq).1 ∧ (squareToCoords sq).1 < 8 ∧
        0 ≤ (squareToCoords sq).2 ∧ (squareToCoords sq).2 < 8
    · rw [if_pos h2]
    · rw [if_neg h2]

theorem setPiece_castlingRights (p : Nat) (sq : Str) (pos : Position) :
    (setPiece p sq pos).castlingRights = pos.castlingRights := by
  rw [setPiece_cases]

theorem setPiece_enPassant (p : Nat) (sq : Str) (pos : Position) :
    (setPiece p sq pos).enPassant = pos.enPassant := by
  rw [setPiece_cases]

theorem setPiece_whiteToPlay (p : Nat) (sq : Str) (pos : Position) :
    (setPiece p sq pos).whiteToPlay = pos.whiteToPlay := by
  rw [setPiece_cases]

theorem setPiece_halfmove (p : Nat) (sq : Str) (pos : Position) :
    (setPiece p sq pos).halfmove = pos.halfmove := by
  rw [setPiece_cases]

theorem setPiece_fullmove (p : Nat) (sq : Str) (pos : Position) :
    (setPiece p sq pos).fullmove = pos.fullmove := by
  rw [setPiece_cases]

theorem setPiece_positionHistory (p : Nat) (sq : Str) (pos : Position) :
    (setPiece p sq pos).positionHistory = pos.positionHistory := by
  rw [setPiece_cases]

theorem setPiece_moveHistory (p : Nat) (sq : Str) (pos : Position) :
    (setPiece p sq pos).moveHistory = pos.moveHistory := by
  rw [setPiece_cases]

theorem clearBits_testBit (r m i : Nat) :
    (clearBits r m).testBit i = (r.testBit i && !(m.testBit i)) := by
  unfold clearBits
  exact Nat.testBit_bitwise rfl r m i

/-- `a` is a bitwise subset of `b`. -/
def subMask (a b : Nat) : Prop := a &&& b = a

theorem subMask_refl (a : Nat) : subMask a a := by
  unfold subMask
  exact Nat.eq_of_testBit_eq fun i => by simp [Nat.testBit_land]

theorem subMask_clearBits (a m : Nat) : subMask (clearBits a m) a := by
  unfold subMask
  refine Nat.eq_of_testBit_eq fun i => ?_
  simp only [Nat.testBit_land, clearBits_testBit]
  cases a.testBit i <;> cases m.testBit i <;> rfl

theorem subMask_trans {a b c : Nat} (h1 : subMask a b) (h2 : subMask b c) :
    subMask a c := by
  unfold subMask at *
  refine Nat.eq_of_testBit_eq fun i => ?_
  have e1 := congrArg (Nat.testBit · i) h1
  have e2 := congrArg (Nat.testBit · i) h2
  simp only [Nat.testBit_land] at e1 e2 ⊢
  cases hb : b.testBit i <;> cases hc : c.testBit i <;> simp_all

theorem subMask_step (x m : Nat) (cond : Prop) [Decidable cond] :
    subMask (if cond then clearBits x m else x) x := by
  split
  · exact subMask_clearBits x m
  · exact subMask_refl x

theorem epPhase_castlingRights (pos : Position) (f : Nat) (mv : Move)
    (prevEp : Option Str) :
    (epPhase pos f mv prevEp).1.castlingRights = pos.castlingRights := by
  unfold epPhase
  by_cases h1 : f = 1
  · rw [if_pos h1]
    by_cases h2 : sIdx mv.fromSq 1 = '2' ∧ sIdx mv.toSq 1 = '4' <;>
      by_cases h3 : prevEp = some mv.toSq ∧ sIdx mv.fromSq 0 ≠ sIdx mv.toSq 0 <;>
      simp [h2, h3, setPiece_castlingRights]
  · rw [if_neg h1]
    by_cases h1' : f = 7
    · rw [if_pos h1']
      by_cases h2 : sIdx mv.fromSq 1 = '7' ∧ sIdx mv.toSq 1 = '5' <;>
        by_cases h3 : prevEp = some mv.toSq ∧ sIdx mv.fromSq 0 ≠ sIdx mv.toSq 0 <;>
        simp [h2, h3, setPiece_castlingRights]
    · rw [if_neg h1']

theorem castlePhase_cr_sub (pos : Position) (f : Nat) (mv : Move) :
    subMask (castlePhase pos f mv).1.castlingRights pos.castlingRights := by
  unfold castlePhase
  by_cases h1 : f = 6 ∧ mv.fromSq = strL "E1"
  · rw [if_pos h1]
    by_cases h2 : mv.toSq = strL "G1" ∧ pos.castlingRights &&& 1 ≠ 0
    · simp only [if_pos h2, setPiece_castlingRights]
      exact subMask_clearBits _ _
    · rw [if_neg h2]
      by_cases h3 : mv.toSq = strL "C1" ∧ pos.castlingRights &&& 2 ≠ 0
      · simp only [if_pos h3, setPiece_castlingRights]
        exact subMask_clearBits _ _
      · simp only [if_neg h3]
        exact subMask_clearBits _ _
  · rw [if_neg h1]
    by_cases h1' : f = 12 ∧ mv.fromSq = strL "E8"
    · rw [if_pos h1']
      by_cases h2 : mv.toSq = strL "G8" ∧ pos.castlingRights &&& 4 ≠ 0
      · simp only [if_pos h2, setPiece_castlingRights]
        exact subMask_clearBits _ _
      · rw [if_neg h2]
        by_cases h3 : mv.toSq = strL "C8" ∧ pos.castlingRights &&& 8 ≠ 0
        · simp only [if_pos h3, setPiece_castlingRights]
          exact subMask_clearBits _ _
        · simp only [if_neg h3]
          exact subMask_clearBits _ _
    · rw [if_neg h1']
      exact subMask_refl _

theorem rookRightsPhase_cr_sub (pos : Position) (f t : Nat) (mv : Move) :
    subMask (rookRightsPhase pos f t mv).castlingRights pos.castlingRights := by
  unfold rookRightsPhase
  dsimp only
  refine subMask_trans (subMask_step _ _ _) ?_
  refine subMask_trans (subMask_step _ _ _) ?_
  refine subMask_trans (subMask_step _ _ _) ?_
  refine subMask_trans (subMask_step _ _ _) ?_
  refine subMask_trans (subMask_step _ _ _) ?_
  refine subMask_trans (subMask_step _ _ _) ?_
  refine subMask_trans (subMask_step _ _ _) ?_
  exact subMask_step _ _ _

theorem boardPhase_cr_sub (pos : Position) (mv : Move) :
    subMask (boardPhase pos mv).1.castlingRights pos.castlingRights := by
  unfold boardPhase
  dsimp only
  have hep := epPhase_castlingRights
    (rookRightsPhase (castlePhase pos (getPiece pos mv.fromSq) mv).1
      (getPiece pos mv.fromSq) (getPiece pos mv.toSq) mv)
    (getPiece pos mv.fromSq) mv pos.enPassant
  have hrook := rookRightsPhase_cr_sub
    (castlePhase pos (getPiece pos mv.fromSq) mv).1
    (getPiece pos mv.fromSq) (getPiece pos mv.toSq) mv
  have hcast := castlePhase_cr_sub pos (getPiece pos mv.fromSq) mv
  have hsub := subMask_trans hrook hcast
  by_cases hcm : (castlePhase pos (getPiece pos mv.fromSq) mv).2 = true
  · simp only [hcm, if_pos]
    simpa [hep] using hsub
  · simp only [Bool.not_eq_true] at hcm
    simp only [hcm]
    cases hpr : promoPhase (getPiece pos mv.fromSq) mv <;>
      simp [setPiece_castlingRights, hep, hsub]

theorem applyMove_cr_sub (pos : Position) (mv : Move) :
    subMask (applyMove pos mv).2.castlingRights pos.castlingRights := by
  have h : (applyMove pos mv).2.castlingRights = (boardPhase pos mv).1.castlingRights := rfl
  rw [h]
  exact boardPhase_cr_sub pos mv

/-!  ## Claim theorems: C4, C8, C9, C10 -/

/-- C4: in a non-terminal position, `make_move` with legality checking
enabled, given a move whose from/to pair is not in the legal-move list,
returns a game-over result with reason "illegal move" and the opponent
of the side to move as winner, and leaves the position unchanged. -/
theorem c4_illegal_move_forfeiture (pos : Position) (mv : Move)
    (hov : (isGameOver pos).over = false)
    (hnl : ((getMoves pos).any fun m =>
      m.fromSq == mv.fromSq && m.toSq == mv.toSq) = false) :
    makeMove pos mv true =
      (⟨true, some (strL "illegal move"),
        some (if pos.whiteToPlay then strL "black" else strL "white"), false⟩, pos) := by
  unfold makeMove
  simp [hov, hnl]

/-- C4 witness: a concrete non-terminal position and a move outside its
legal list. -/
theorem c4_illegal_move_forfeiture_witness :
    (isGameOver (loadFen (strL "k7/p7/8/8/8/8/8/4K2N w K - 0 1"))).over = false ∧
    ((getMoves (loadFen (strL "k7/p7/8/8/8/8/8/4K2N w K - 0 1"))).any fun m =>
      m.fromSq == strL "E1" && m.toSq == strL "E3") = false ∧
    makeMove (loadFen (strL "k7/p7/8/8/8/8/8/4K2N w K - 0 1"))
        ⟨strL "E1", strL "E3", none⟩ true =
      (⟨true, some (strL "illegal move"),
        some (if (loadFen (strL "k7/p7/8/8/8/8/8/4K2N w K - 0 1")).whiteToPlay
              then strL "black" else strL "white"), false⟩,
        loadFen (strL "k7/p7/8/8/8/8/8/4K2N w K - 0 1")) :=
  ⟨by decide, by decide,
    c4_illegal_move_forfeiture _ _ (by decide) (by decide)⟩

/-- C8: the castling-rights bitmask after any `make_move` call is a
bitwise subset of the bitmask before it — `make_move` never sets a
castling-rights bit that was clear. -/
theorem c8_castling_rights_monotone (pos : Position) (mv : Move) (b : Bool) :
    subMask (makeMove pos mv b).2.castlingRights pos.castlingRights := by
  unfold makeMove
  by_cases hov : (isGameOver pos).over = true
  · simp only [hov, if_pos]
    exact subMask_refl _
  · simp only [Bool.not_eq_true] at hov
    simp only [hov, Bool.false_eq_true, if_false]
    by_cases hleg : (b && !((getMoves pos).any fun m =>
        m.fromSq == mv.fromSq && m.toSq == mv.toSq)) = true
    · simp only [hleg, if_pos]
      exact subMask_refl _
    · simp only [Bool.not_eq_true] at hleg
      simp only [hleg, Bool.false_eq_true, if_false]
      exact applyMove_cr_sub pos mv

/-- C9: `decrement_current_player_timer` subtracts from the mover's
clock when timers are enabled and the mover has one, clamping to 0 and
latching a timeout result for the opponent (returning `true`) when the
result is ≤ 0, and otherwise — including when timers are disabled or
the mover has no clock — returning `false` and latching nothing. -/
theorem c9_decrement_timer (pos : Position) (ms : Int) :
    (pos.timersEnabled = false → decrementTimer pos ms = (false, pos)) ∧
    (pos.timersEnabled = true → pos.whiteToPlay = true → ∀ w, pos.whiteTime = some w →
      (w - ms ≤ 0 →
        decrementTimer pos ms =
          (true, { pos with whiteTime := some 0
                            timeoutResult := some ⟨strL "black", strL "timeout"⟩ })) ∧
      (0 < w - ms →
        decrementTimer pos ms = (false, { pos with whiteTime := some (w - ms) }))) ∧
    (pos.timersEnabled = true → pos.whiteToPlay = false → ∀ w, pos.blackTime = some w →
      (w - ms ≤ 0 →
        decrementTimer pos ms =
          (true, { pos with blackTime := some 0
                            timeoutResult := some ⟨strL "white", strL "timeout"⟩ })) ∧
      (0 < w - ms →
        decrementTimer pos ms = (false, { pos with blackTime := some (w - ms) }))) ∧
    (pos.timersEnabled = true → pos.whiteToPlay = true → pos.whiteTime = none →
      decrementTimer pos ms = (false, pos)) ∧
    (pos.timersEnabled = true → pos.whiteToPlay = false → pos.blackTime = none →
      decrementTimer pos ms = (false, pos)) := by
  refine ⟨fun hd => ?_, fun he hw w ht => ⟨fun hle => ?_, fun hgt => ?_⟩,
          fun he hw w ht => ⟨fun hle => ?_, fun hgt => ?_⟩,
          fun he hw ht => ?_, fun he hw ht => ?_⟩ <;>
    simp [decrementTimer, *] <;> omega

/-- C9 witness: timers set, white to move, decrement past zero. -/
theorem c9_decrement_timer_witness :
    (setTimers (loadFen (strL "k7/8/8/8/8/8/8/K7 w - - 0 1"))
      (some 100) (some 100)).timersEnabled = true ∧
    (setTimers (loadFen (strL "k7/8/8/8/8/8/8/K7 w - - 0 1"))
      (some 100) (some 100)).whiteToPlay = true ∧
    (setTimers (loadFen (strL "k7/8/8/8/8/8/8/K7 w - - 0 1"))
      (some 100) (some 100)).whiteTime = some 100 ∧
    decrementTimer (setTimers (loadFen (strL "k7/8/8/8/8/8/8/K7 w - - 0 1"))
        (some 100) (some 100)) 150 =
      (true, { setTimers (loadFen (strL "k7/8/8/8/8/8/8/K7 w - - 0 1"))
                (some 100) (some 100) with
               whiteTime := some 0
               timeoutResult := some ⟨strL "black", strL "timeout"⟩ }) :=
  ⟨by decide, by decide, by decide,
    ((c9_decrement_timer (setTimers (loadFen (strL "k7/8/8/8/8/8/8/K7 w - - 0 1"))
        (some 100) (some 100)) 150).2.1 (by decide) (by decide) 100
      (by decide)).1 (by decide)⟩

/-- C10: whenever `make_move` returns without applying the move —
because the game is already over, or because legality checking is
enabled and the from/to pair is not in the legal list — the returned
position is exactly the input position, every field unchanged. -/
theorem c10_early_return_no_mutation (pos : Position) (mv : Move) (b : Bool)
    (h : (isGameOver pos).over = true ∨
      (b = true ∧ ((getMoves pos).any fun m =>
        m.fromSq == mv.fromSq && m.toSq == mv.toSq) = false)) :
    (makeMove pos mv b).2 = pos := by
  unfold makeMove
  rcases h with hov | ⟨hb, hnl⟩
  · simp [hov]
  · by_cases hov : (isGameOver pos).over = true
    · simp [hov]
    · simp only [Bool.not_eq_true] at hov
      simp [hov, hb, hnl]

/-- C10 witness: a game-over position (bare kings are insufficient
material), arbitrary move. -/
theorem c10_early_return_no_mutation_witness :
    ((isGameOver (loadFen (strL "k7/8/8/8/8/8/8/K7 w - - 0 1"))).over = true ∨
      (true = true ∧ ((getMoves (loadFen (strL "k7/8/8/8/8/8/8/K7 w - - 0 1"))).any
        fun m => m.fromSq == strL "A1" && m.toSq == strL "A2") = false)) ∧
    (makeMove (loadFen (strL "k7/8/8/8/8/8/8/K7 w - - 0 1"))
      ⟨strL "A1", strL "A2", none⟩ true).2 =
      loadFen (strL "k7/8/8/8/8/8/8/K7 w - - 0 1") :=
  ⟨Or.inl (by decide),
    c10_early_return_no_mutation _ _ _ (Or.inl (by decide))⟩

theorem castlePhase_scalars (pos : Position) (f : Nat) (mv : Move) :
    (castlePhase pos f mv).1.whiteToPlay = pos.whiteToPlay ∧
    (castlePhase pos f mv).1.enPassant = pos.enPassant ∧
    (castlePhase pos f mv).1.halfmove = pos.halfmove ∧
    (castlePhase pos f mv).1.fullmove = pos.fullmove ∧
    (castlePhase pos f mv).1.positionHistory = pos.positionHistory ∧
    (castlePhase pos f mv).1.moveHistory = pos.moveHistory := by
  unfold castlePhase
  by_cases h1 : f = 6 ∧ mv.fromSq = strL "E1"
  · rw [if_pos h1]
    by_cases h2 : mv.toSq = strL "G1" ∧ pos.castlingRights &&& 1 ≠ 0
    · rw [if_pos h2]
      simp [setPiece_whiteToPlay, setPiece_enPassant, setPiece_halfmove,
        setPiece_fullmove, setPiece_positionHistory, setPiece_moveHistory]
    · rw [if_neg h2]
      by_cases h3 : mv.toSq = strL "C1" ∧ pos.castlingRights &&& 2 ≠ 0
      · rw [if_pos h3]
        simp [setPiece_whiteToPlay, setPiece_enPassant, setPiece_halfmove,
          setPiece_fullmove, setPiece_positionHistory, setPiece_moveHistory]
      · rw [if_neg h3]
        exact ⟨rfl, rfl, rfl, rfl, rfl, rfl⟩
  · rw [if_neg h1]
    by_cases h1' : f = 12 ∧ mv.fromSq = strL "E8"
    · rw [if_pos h1']
      by_cases h2 : mv.toSq = strL "G8" ∧ pos.castlingRights &&& 4 ≠ 0
      · rw [if_pos h2]
        simp [setPiece_whiteToPlay, setPiece_enPassant, setPiece_halfmove,
          setPiece_fullmove, setPiece_positionHistory, setPiece_moveHistory]
      · rw [if_neg h2]
        by_cases h3 : mv.toSq = strL "C8" ∧ pos.castlingRights &&& 8 ≠ 0
        · rw [if_pos h3]
          simp [setPiece_whiteToPlay, setPiece_enPassant, setPiece_halfmove,
            setPiece_fullmove, setPiece_positionHistory, setPiece_moveHistory]
        · rw [if_neg h3]
          exact ⟨rfl, rfl, rfl, rfl, rfl, rfl⟩
    · rw [if_neg h1']
      exact ⟨rfl, rfl, rfl, rfl, rfl, rfl⟩

theorem rookRightsPhase_scalars (pos : Position) (f t : Nat) (mv : Move) :
    (rookRightsPhase pos f t mv).board = pos.board ∧
    (rookRightsPhase pos f t mv).whiteToPlay = pos.whiteToPlay ∧
    (rookRightsPhase pos f t mv).enPassant = pos.enPassant ∧
    (rookRightsPhase pos f t mv).halfmove = pos.halfmove ∧
    (rookRightsPhase pos f t mv).fullmove = pos.fullmove ∧
    (rookRightsPhase pos f t mv).positionHistory = pos.positionHistory ∧
    (rookRightsPhase pos f t mv).moveHistory = pos.moveHistory ∧
    (rookRightsPhase pos f t mv).kingWhite = pos.kingWhite ∧
    (rookRightsPhase pos f t mv).kingBlack = pos.kingBlack := by
  unfold rookRightsPhase
  exact ⟨rfl, rfl, rfl, rfl, rfl, rfl, rfl, rfl, rfl⟩

theorem epPhase_scalars (pos : Position) (f : Nat) (mv : Move) (prevEp : Option Str) :
    (epPhase pos f mv prevEp).1.whiteToPlay = pos.whiteToPlay ∧
    (epPhase pos f mv prevEp).1.halfmove = pos.halfmove ∧
    (epPhase pos f mv prevEp).1.fullmove = pos.fullmove ∧
    (epPhase pos f mv prevEp).1.positionHistory = pos.positionHistory ∧
    (epPhase pos f mv prevEp).1.moveHistory = pos.moveHistory := by
  unfold epPhase
  by_cases h1 : f = 1
  · rw [if_pos h1]
    by_cases h2 : sIdx mv.fromSq 1 = '2' ∧ sIdx mv.toSq 1 = '4' <;>
      by_cases h3 : prevEp = some mv.toSq ∧ sIdx mv.fromSq 0 ≠ sIdx mv.toSq 0 <;>
      simp [h2, h3, setPiece_whiteToPlay, setPiece_halfmove, setPiece_fullmove,
        setPiece_positionHistory, setPiece_moveHistory]
  · rw [if_neg h1]
    by_cases h1' : f = 7
    · rw [if_pos h1']
      by_cases h2 : sIdx mv.fromSq 1 = '7' ∧ sIdx mv.toSq 1 = '5' <;>
        by_cases h3 : prevEp = some mv.toSq ∧ sIdx mv.fromSq 0 ≠ sIdx mv.toSq 0 <;>
        simp [h2, h3, setPiece_whiteToPlay, setPiece_halfmove, setPiece_fullmove,
          setPiece_positionHistory, setPiece_moveHistory]
    · rw [if_neg h1']
      exact ⟨rfl, rfl, rfl, rfl, rfl⟩

theorem epPhase_flag (pos : Position) (f : Nat) (mv : Move) (prevEp : Option Str) :
    (epPhase pos f mv prevEp).2 = true ↔
      ((f = 1 ∨ f = 7) ∧ prevEp = some mv.toSq ∧
        sIdx mv.fromSq 0 ≠ sIdx mv.toSq 0) := by
  unfold epPhase
  by_cases h1 : f = 1
  · rw [if_pos h1]
    by_cases h2 : sIdx mv.fromSq 1 = '2' ∧ sIdx mv.toSq 1 = '4' <;>
      by_cases h3 : prevEp = some mv.toSq ∧ sIdx mv.fromSq 0 ≠ sIdx mv.toSq 0 <;>
      simp [h2, h3, h1]
  · rw [if_neg h1]
    by_cases h1' : f = 7
    · rw [if_pos h1']
      by_cases h2 : sIdx mv.fromSq 1 = '7' ∧ sIdx mv.toSq 1 = '5' <;>
        by_cases h3 : prevEp = some mv.toSq ∧ sIdx mv.fromSq 0 ≠ sIdx mv.toSq 0 <;>
        simp [h2, h3, h1, h1']
    · rw [if_neg h1']
      simp [h1, h1']

theorem boardPhase_scalars (pos : Position) (mv : Move) :
    (boardPhase pos mv).1.whiteToPlay = pos.whiteToPlay ∧
    (boardPhase pos mv).1.halfmove = pos.halfmove ∧
    (boardPhase pos mv).1.fullmove = pos.fullmove ∧
    (boardPhase pos mv).1.positionHistory = pos.positionHistory ∧
    (boardPhase pos mv).1.moveHistory = pos.moveHistory := by
  unfold boardPhase
  dsimp only
  have hc := castlePhase_scalars pos (getPiece pos mv.fromSq) mv
  have hr := rookRightsPhase_scalars (castlePhase pos (getPiece pos mv.fromSq) mv).1
    (getPiece pos mv.fromSq) (getPiece pos mv.toSq) mv
  have he := epPhase_scalars
    (rookRightsPhase (castlePhase pos (getPiece pos mv.fromSq) mv).1
      (getPiece pos mv.fromSq) (getPiece pos mv.toSq) mv)
    (getPiece pos mv.fromSq) mv pos.enPassant
  by_cases hcm : (castlePhase pos (getPiece pos mv.fromSq) mv).2 = true
  · simp only [hcm, if_pos]
    refine ⟨?_, ?_, ?_, ?_, ?_⟩ <;> simp_all
  · simp only [Bool.not_eq_true] at hcm
    simp only [hcm, Bool.false_eq_true, if_false]
    cases hpr : promoPhase (getPiece pos mv.fromSq) mv <;>
      refine ⟨?_, ?_, ?_, ?_, ?_⟩ <;>
      simp_all [setPiece_whiteToPlay, setPiece_halfmove, setPiece_fullmove,
        setPiece_positionHistory, setPiece_moveHistory]

/-- The source's `en_passant_capture` flag as a predicate of the call
arguments: the mover is a pawn landing on the previous en-passant
target with a file change. -/
def epCaptureCond (pos : Position) (mv : Move) : Prop :=
  (getPiece pos mv.fromSq = 1 ∨ getPiece pos mv.fromSq = 7) ∧
  pos.enPassant = some mv.toSq ∧ sIdx mv.fromSq 0 ≠ sIdx mv.toSq 0

instance (pos : Position) (mv : Move) : Decidable (epCaptureCond pos mv) := by
  unfold epCaptureCond; infer_instance

theorem boardPhase_epFlag (pos : Position) (mv : Move) :
    (boardPhase pos mv).2.2.1 = true ↔ epCaptureCond pos mv := by
  have h : (boardPhase pos mv).2.2.1 =
      (epPhase (rookRightsPhase (castlePhase pos (getPiece pos mv.fromSq) mv).1
        (getPiece pos mv.fromSq) (getPiece pos mv.toSq) mv)
        (getPiece pos mv.fromSq) mv pos.enPassant).2 := rfl
  rw [h, epPhase_flag]
  unfold epCaptureCond
  exact Iff.rfl

theorem makeMove_applies (pos : Position) (mv : Move) (b : Bool)
    (hov : (isGameOver pos).over = false)
    (hleg : b = true → ((getMoves pos).any fun m =>
      m.fromSq == mv.fromSq && m.toSq == mv.toSq) = true) :
    makeMove pos mv b = applyMove pos mv := by
  have hb : (b && !((getMoves pos).any fun m =>
      m.fromSq == mv.fromSq && m.toSq == mv.toSq)) = false := by
    cases b
    · rfl
    · simp [hleg rfl]
  unfold makeMove
  simp [hov, hb]

/-- C7: whenever `make_move` actually applies a move, the halfmove
clock becomes 0 exactly when a pawn moved, the destination was
occupied, or it was an en passant capture (else old value + 1); the
fullmove number increments exactly when black moved; the side to move
flips; and exactly one new position hash is appended to the position
history. -/
theorem c7_post_move_bookkeeping (pos : Position) (mv : Move) (b : Bool)
    (hov : (isGameOver pos).over = false)
    (hleg : b = true → ((getMoves pos).any fun m =>
      m.fromSq == mv.fromSq && m.toSq == mv.toSq) = true) :
    ((makeMove pos mv b).2.halfmove =
      if getPiece pos mv.fromSq = 1 ∨ getPiece pos mv.fromSq = 7 ∨
          getPiece pos mv.toSq ≠ 0 ∨ epCaptureCond pos mv
        then 0 else pos.halfmove + 1) ∧
    ((makeMove pos mv b).2.fullmove =
      if pos.whiteToPlay = true then pos.fullmove else pos.fullmove + 1) ∧
    ((makeMove pos mv b).2.whiteToPlay = !pos.whiteToPlay) ∧
    ((makeMove pos mv b).2.positionHistory =
      pos.positionHistory ++ [positionHash (makeMove pos mv b).2]) := by
  rw [makeMove_applies pos mv b hov hleg]
  refine ⟨?_, rfl, rfl, ?_⟩
  · have h1 : (applyMove pos mv).2.halfmove =
        if getPiece pos mv.fromSq = 1 ∨ getPiece pos mv.fromSq = 7 ∨
            getPiece pos mv.toSq ≠ 0 ∨ (boardPhase pos mv).2.2.1 = true
          then 0 else pos.halfmove + 1 := rfl
    rw [h1]
    exact if_congr (by rw [boardPhase_epFlag]) rfl rfl
  · show (boardPhase pos mv).1.positionHistory ++ [positionHash (applyMove pos mv).2] =
      pos.positionHistory ++ [positionHash (applyMove pos mv).2]
    rw [(boardPhase_scalars pos mv).2.2.2.1]

/-- C7 witness: a concrete pawn capture move. -/
theorem c7_post_move_bookkeeping_witness :
    (isGameOver (loadFen (strL "k7/8/8/8/8/1p6/P7/K7 w - - 3 5"))).over = false ∧
    (true = true → ((getMoves (loadFen (strL "k7/8/8/8/8/1p6/P7/K7 w - - 3 5"))).any
      fun m => m.fromSq == strL "A2" && m.toSq == strL "B3") = true) ∧
    (((makeMove (loadFen (strL "k7/8/8/8/8/1p6/P7/K7 w - - 3 5"))
        ⟨strL "A2", strL "B3", none⟩ true).2.halfmove =
      if getPiece (loadFen (strL "k7/8/8/8/8/1p6/P7/K7 w - - 3 5")) (strL "A2") = 1 ∨
          getPiece (loadFen (strL "k7/8/8/8/8/1p6/P7/K7 w - - 3 5")) (strL "A2") = 7 ∨
          getPiece (loadFen (strL "k7/8/8/8/8/1p6/P7/K7 w - - 3 5")) (strL "B3") ≠ 0 ∨
          epCaptureCond (loadFen (strL "k7/8/8/8/8/1p6/P7/K7 w - - 3 5"))
            ⟨strL "A2", strL "B3", none⟩
        then 0 else (loadFen (strL "k7/8/8/8/8/1p6/P7/K7 w - - 3 5")).halfmove + 1) ∧
    ((makeMove (loadFen (strL "k7/8/8/8/8/1p6/P7/K7 w - - 3 5"))
        ⟨strL "A2", strL "B3", none⟩ true).2.fullmove =
      if (loadFen (strL "k7/8/8/8/8/1p6/P7/K7 w - - 3 5")).whiteToPlay = true
        then (loadFen (strL "k7/8/8/8/8/1p6/P7/K7 w - - 3 5")).fullmove
        else (loadFen (strL "k7/8/8/8/8/1p6/P7/K7 w - - 3 5")).fullmove + 1) ∧
    ((makeMove (loadFen (strL "k7/8/8/8/8/1p6/P7/K7 w - - 3 5"))
        ⟨strL "A2", strL "B3", none⟩ true).2.whiteToPlay =
      !(loadFen (strL "k7/8/8/8/8/1p6/P7/K7 w - - 3 5")).whiteToPlay) ∧
    ((makeMove (loadFen (strL "k7/8/8/8/8/1p6/P7/K7 w - - 3 5"))
        ⟨strL "A2", strL "B3", none⟩ true).2.positionHistory =
      (loadFen (strL "k7/8/8/8/8/1p6/P7/K7 w - - 3 5")).positionHistory ++
        [positionHash (makeMove (loadFen (strL "k7/8/8/8/8/1p6/P7/K7 w - - 3 5"))
          ⟨strL "A2", strL "B3", none⟩ true).2])) :=
  ⟨by decide, fun _ => by decide,
    c7_post_move_bookkeeping (loadFen (strL "k7/8/8/8/8/1p6/P7/K7 w - - 3 5"))
      ⟨strL "A2", strL "B3", none⟩ true (by decide) (fun _ => by decide)⟩

/-- Terminal-state evaluation as the specification words it: first a
latched timeout result, then halfmove clock at least 100 ("50-move
rule" draw), then insufficient material (draw), then the current
position hash appearing at least 3 times in a history of length at
least 4 ("threefold repetition" draw), then no legal moves — checkmate
for the opponent if the mover's king is attacked, else a stalemate
draw; otherwise the game continues.  (Refinement counterpart of
`isGameOver`, written from the claim's text.) -/
def specTerminalEval (pos : Position) : GameOver :=
  match pos.timeoutResult with
  | some tr => ⟨true, some tr.reason, some tr.winner⟩
  | none =>
    if 100 ≤ pos.halfmove then ⟨true, some (strL "50-move rule"), some (strL "draw")⟩
    else if isInsufficientMaterial pos then
      ⟨true, some (strL "insufficient material"), some (strL "draw")⟩
    else if 4 ≤ pos.positionHistory.length ∧
        3 ≤ pos.positionHistory.countP (· == positionHash pos) then
      ⟨true, some (strL "threefold repetition"), some (strL "draw")⟩
    else if getMoves pos = [] then
      if isKingAttacked pos pos.whiteToPlay then
        ⟨true, some (strL "checkmate"),
          some (if pos.whiteToPlay then strL "black" else strL "white")⟩
      else ⟨true, some (strL "stalemate"), some (strL "draw")⟩
    else ⟨false, none, none⟩

theorem threefold_iff (pos : Position) :
    isThreefoldRepetition pos = true ↔
      4 ≤ pos.positionHistory.length ∧
      3 ≤ pos.positionHistory.countP (· == positionHash pos) := by
  unfold isThreefoldRepetition
  by_cases h : pos.positionHistory.length < 4 <;> (simp [h] <;> (try omega))

/-- C5: `is_game_over` checks its conditions in exactly the claimed
order with the first match winning — latched timeout, halfmove clock ≥
100 (draw "50-move rule"), insufficient material (draw), current hash
at least 3 times in a history of length at least 4 (draw "threefold
repetition"), then no legal moves (checkmate for the opponent when the
mover's king is attacked, else stalemate); otherwise the game
continues.  The hypothesis reflects that a timeout result is only ever
latched while timers are enabled. -/
theorem c5_terminal_eval_order (pos : Position)
    (hl : pos.timeoutResult.isSome → pos.timersEnabled = true) :
    isGameOver pos = specTerminalEval pos := by
  unfold isGameOver specTerminalEval
  cases htr : pos.timeoutResult with
  | some tr =>
    rw [hl (by rw [htr]; rfl)]
  | none =>
    unfold gameOverRest
    split_ifs <;> simp_all [threefold_iff]

/-- C5 witness: a stalemate position (black king a8 is not attacked and
black has no legal move). -/
theorem c5_terminal_eval_order_witness :
    ((loadFen (strL "k7/8/1Q6/8/8/8/8/K7 b - - 0 1")).timeoutResult.isSome →
      (loadFen (strL "k7/8/1Q6/8/8/8/8/K7 b - - 0 1")).timersEnabled = true) ∧
    isGameOver (loadFen (strL "k7/8/1Q6/8/8/8/8/K7 b - - 0 1")) =
      specTerminalEval (loadFen (strL "k7/8/1Q6/8/8/8/8/K7 b - - 0 1")) :=
  ⟨fun h => by revert h; decide,
    c5_terminal_eval_order _ (fun h => by revert h; decide)⟩

theorem stepGen_to (pos : Position) (r c : Int) (fromSq : Str) (isWhite : Bool)
    (offs : List (Int × Int)) (m : Move)
    (h : m ∈ stepGen pos r c fromSq isWhite offs) :
    ∃ o ∈ offs, m = ⟨fromSq, coordsToSquare (r + o.1) (c + o.2), none⟩ := by
  unfold stepGen at h
  rw [List.mem_flatMap] at h
  obtain ⟨o, ho, hm⟩ := h
  refine ⟨o, ho, ?_⟩
  dsimp only at hm
  split at hm
  · simp at hm
    exact hm.2
  · simp at hm

theorem stepGen_not_mem (pos : Position) (r c : Int) (fromSq tos : Str)
    (isWhite : Bool) (offs : List (Int × Int)) (p : Option Nat)
    (h : ∀ o ∈ offs, coordsToSquare (r + o.1) (c + o.2) ≠ tos) :
    (⟨fromSq, tos, p⟩ : Move) ∉ stepGen pos r c fromSq isWhite offs := by
  intro hmem
  obtain ⟨o, ho, hm⟩ := stepGen_to _ _ _ _ _ _ _ hmem
  have ht : tos = coordsToSquare (r + o.1) (c + o.2) := congrArg Move.toSq hm
  exact h o ho ht.symm

/-- C6: a castling move is generated by the king-move generator if and
only if the matching rights bit is set, the king is not currently
attacked, every square between king and rook is empty, and the two
squares the king transits (its crossing square and its destination) are
not attacked by the opponent; queenside additionally requires the
b-file square to be empty although that square is not attack-checked.
Stated for all four castling moves at the king's home square. -/
theorem c6_castling_generation (pos : Position) :
    ((⟨strL "E1", strL "G1", none⟩ : Move) ∈ kingGen pos 7 4 (strL "E1") true ↔
      (pos.castlingRights &&& 1 ≠ 0 ∧ isKingAttacked pos true = false ∧
        pos.board 7 5 = 0 ∧ pos.board 7 6 = 0 ∧
        isSquareAttackedB pos.board 7 5 false = false ∧
        isSquareAttackedB pos.board 7 6 false = false)) ∧
    ((⟨strL "E1", strL "C1", none⟩ : Move) ∈ kingGen pos 7 4 (strL "E1") true ↔
      (pos.castlingRights &&& 2 ≠ 0 ∧ isKingAttacked pos true = false ∧
        pos.board 7 3 = 0 ∧ pos.board 7 2 = 0 ∧ pos.board 7 1 = 0 ∧
        isSquareAttackedB pos.board 7 3 false = false ∧
        isSquareAttackedB pos.board 7 2 false = false)) ∧
    ((⟨strL "E8", strL "G8", none⟩ : Move) ∈ kingGen pos 0 4 (strL "E8") false ↔
      (pos.castlingRights &&& 4 ≠ 0 ∧ isKingAttacked pos false = false ∧
        pos.board 0 5 = 0 ∧ pos.board 0 6 = 0 ∧
        isSquareAttackedB pos.board 0 5 true = false ∧
        isSquareAttackedB pos.board 0 6 true = false)) ∧
    ((⟨strL "E8", strL "C8", none⟩ : Move) ∈ kingGen pos 0 4 (strL "E8") false ↔
      (pos.castlingRights &&& 8 ≠ 0 ∧ isKingAttacked pos false = false ∧
        pos.board 0 3 = 0 ∧ pos.board 0 2 = 0 ∧ pos.board 0 1 = 0 ∧
        isSquareAttackedB pos.board 0 3 true = false ∧
        isSquareAttackedB pos.board 0 2 true = false)) := by
  unfold kingGen
  rw [if_pos (show (true = true) ∧ ((7 : Int) = 7) ∧ ((4 : Int) = 4) by decide)]
  rw [if_neg (show ¬((false = true) ∧ ((0 : Int) = 7) ∧ ((4 : Int) = 4)) by decide)]
  rw [if_pos (show ¬(false = true) ∧ ((0 : Int) = 0) ∧ ((4 : Int) = 4) by decide)]
  refine ⟨⟨fun hmem => ?_, fun hcond => ?_⟩, ⟨fun hmem => ?_, fun hcond => ?_⟩,
          ⟨fun hmem => ?_, fun hcond => ?_⟩, ⟨fun hmem => ?_, fun hcond => ?_⟩⟩
  · rcases List.mem_append.mp hmem with hn | hc
    · exact absurd hn (stepGen_not_mem _ _ _ _ _ _ _ _ (by decide))
    · rcases List.mem_append.mp hc with h1 | h2
      · by_cases hck : pos.castlingRights &&& 1 ≠ 0 ∧ isKingAttacked pos true = false ∧
            pos.board 7 5 = 0 ∧ pos.board 7 6 = 0 ∧
            isSquareAttackedB pos.board 7 5 false = false ∧
            isSquareAttackedB pos.board 7 6 false = false
        · exact hck
        · rw [if_neg hck] at h1
          cases h1
      · by_cases hcq : pos.castlingRights &&& 2 ≠ 0 ∧ isKingAttacked pos true = false ∧
            pos.board 7 3 = 0 ∧ pos.board 7 2 = 0 ∧ pos.board 7 1 = 0 ∧
            isSquareAttackedB pos.board 7 3 false = false ∧
            isSquareAttackedB pos.board 7 2 false = false
        · rw [if_pos hcq] at h2
          exact absurd (List.mem_singleton.mp h2) (by decide)
        · rw [if_neg hcq] at h2
          cases h2
  · refine List.mem_append.mpr (Or.inr (List.mem_append.mpr (Or.inl ?_)))
    rw [if_pos hcond]
    exact List.mem_singleton.mpr rfl
  · rcases List.mem_append.mp hmem with hn | hc
    · exact absurd hn (stepGen_not_mem _ _ _ _ _ _ _ _ (by decide))
    · rcases List.mem_append.mp hc with h1 | h2
      · by_cases hck : pos.castlingRights &&& 1 ≠ 0 ∧ isKingAttacked pos true = false ∧
            pos.board 7 5 = 0 ∧ pos.board 7 6 = 0 ∧
            isSquareAttackedB pos.board 7 5 false = false ∧
            isSquareAttackedB pos.board 7 6 false = false
        · rw [if_pos hck] at h1
          exact absurd (List.mem_singleton.mp h1) (by decide)
        · rw [if_neg hck] at h1
          cases h1
      · by_cases hcq : pos.castlingRights &&& 2 ≠ 0 ∧ isKingAttacked pos true = false ∧
            pos.board 7 3 = 0 ∧ pos.board 7 2 = 0 ∧ pos.board 7 1 = 0 ∧
            isSquareAttackedB pos.board 7 3 false = false ∧
            isSquareAttackedB pos.board 7 2 false = false
        · exact hcq
        · rw [if_neg hcq] at h2
          cases h2
  · refine List.mem_append.mpr (Or.inr (List.mem_append.mpr (Or.inr ?_)))
    rw [if_pos hcond]
    exact List.mem_singleton.mpr rfl
  · rcases List.mem_append.mp hmem with hn | hc
    · exact absurd hn (stepGen_not_mem _ _ _ _ _ _ _ _ (by decide))
    · rcases List.mem_append.mp hc with h1 | h2
      · by_cases hck : pos.castlingRights &&& 4 ≠ 0 ∧ isKingAttacked pos false = false ∧
            pos.board 0 5 = 0 ∧ pos.board 0 6 = 0 ∧
            isSquareAttackedB pos.board 0 5 true = false ∧
            isSquareAttackedB pos.board 0 6 true = false
        · exact hck
        · rw [if_neg hck] at h1
          cases h1
      · by_cases hcq : pos.castlingRights &&& 8 ≠ 0 ∧ isKingAttacked pos false = false ∧
            pos.board 0 3 = 0 ∧ pos.board 0 2 = 0 ∧ pos.board 0 1 = 0 ∧
            isSquareAttackedB pos.board 0 3 true = false ∧
            isSquareAttackedB pos.board 0 2 true = false
        · rw [if_pos hcq] at h2
          exact absurd (List.mem_singleton.mp h2) (by decide)
        · rw [if_neg hcq] at h2
          cases h2
  · refine List.mem_append.mpr (Or.inr (List.mem_append.mpr (Or.inl ?_)))
    rw [if_pos hcond]
    exact List.mem_singleton.mpr rfl
  · rcases List.mem_append.mp hmem with hn | hc
    · exact absurd hn (stepGen_not_mem _ _ _ _ _ _ _ _ (by decide))
    · rcases List.mem_append.mp hc with h1 | h2
      · by_cases hck : pos.castlingRights &&& 4 ≠ 0 ∧ isKingAttacked pos false = false ∧
            pos.board 0 5 = 0 ∧ pos.board 0 6 = 0 ∧
            isSquareAttackedB pos.board 0 5 true = false ∧
            isSquareAttackedB pos.board 0 6 true = false
        · rw [if_pos hck] at h1
          exact absurd (List.mem_singleton.mp h1) (by decide)
        · rw [if_neg hck] at h1
          cases h1
      · by_cases hcq : pos.castlingRights &&& 8 ≠ 0 ∧ isKingAttacked pos false = false ∧
            pos.board 0 3 = 0 ∧ pos.board 0 2 = 0 ∧ pos.board 0 1 = 0 ∧
            isSquareAttackedB pos.board 0 3 true = false ∧
            isSquareAttackedB pos.board 0 2 true = false
        · exact hcq
        · rw [if_neg hcq] at h2
          cases h2
  · refine List.mem_append.mpr (Or.inr (List.mem_append.mpr (Or.inr ?_)))
    rw [if_pos hcond]
    exact List.mem_singleton.mpr rfl

theorem isMoveLegalB_some (pos : Position) (p : Int × Int) (m : Move) :
    isMoveLegalB pos (some p) m =
      !(isSquareAttackedB (simBoard pos m)
        (if pos.board (squareToCoords m.fromSq).1 (squareToCoords m.fromSq).2 = 6 ∨
            pos.board (squareToCoords m.fromSq).1 (squareToCoords m.fromSq).2 = 12
          then (squareToCoords m.toSq).1 else p.1)
        (if pos.board (squareToCoords m.fromSq).1 (squareToCoords m.fromSq).2 = 6 ∨
            pos.board (squareToCoords m.fromSq).1 (squareToCoords m.fromSq).2 = 12
          then (squareToCoords m.toSq).2 else p.2)
        (!pos.whiteToPlay)) := by
  unfold isMoveLegalB simKing
  by_cases hc : pos.board (squareToCoords m.fromSq).1 (squareToCoords m.fromSq).2 = 6 ∨
      pos.board (squareToCoords m.fromSq).1 (squareToCoords m.fromSq).2 = 12
  · rw [if_pos hc, if_pos hc, if_pos hc]
  · rw [if_neg hc, if_neg hc, if_neg hc]

/-- C3: with the mover's king-position cache pointing at the mover's
king, every move returned by `get_moves` — simulated by clearing its
source square and placing the moving piece on its destination — leaves
the mover's king (its destination square if the king itself moved, else
its cached square) un-attacked by the opponent, and no pseudo-legal
move whose simulation leaves that king attacked is ever in the returned
list. -/
theorem c3_legality_soundness (pos : Position) (kr kc : Int)
    (hk : (if pos.whiteToPlay then pos.kingWhite else pos.kingBlack) = some (kr, kc))
    (_hkb : pos.board kr kc = if pos.whiteToPlay then 6 else 12) :
    (∀ m ∈ getMoves pos,
      isSquareAttackedB (simBoard pos m)
        (if pos.board (squareToCoords m.fromSq).1 (squareToCoords m.fromSq).2 = 6 ∨
            pos.board (squareToCoords m.fromSq).1 (squareToCoords m.fromSq).2 = 12
          then (squareToCoords m.toSq).1 else kr)
        (if pos.board (squareToCoords m.fromSq).1 (squareToCoords m.fromSq).2 = 6 ∨
            pos.board (squareToCoords m.fromSq).1 (squareToCoords m.fromSq).2 = 12
          then (squareToCoords m.toSq).2 else kc)
        (!pos.whiteToPlay) = false) ∧
    (∀ m ∈ pseudoMoves pos,
      isSquareAttackedB (simBoard pos m)
        (if pos.board (squareToCoords m.fromSq).1 (squareToCoords m.fromSq).2 = 6 ∨
            pos.board (squareToCoords m.fromSq).1 (squareToCoords m.fromSq).2 = 12
          then (squareToCoords m.toSq).1 else kr)
        (if pos.board (squareToCoords m.fromSq).1 (squareToCoords m.fromSq).2 = 6 ∨
            pos.board (squareToCoords m.fromSq).1 (squareToCoords m.fromSq).2 = 12
          then (squareToCoords m.toSq).2 else kc)
        (!pos.whiteToPlay) = true →
      m ∉ getMoves pos) := by
  constructor
  · intro m hm
    unfold getMoves filterLegal at hm
    rw [List.mem_filter] at hm
    have h2 := hm.2
    rw [hk, isMoveLegalB_some] at h2
    simpa using h2
  · intro m _ hatt hmem
    unfold getMoves filterLegal at hmem
    rw [List.mem_filter] at hmem
    have h2 := hmem.2
    rw [hk, isMoveLegalB_some, hatt] at h2
    cases h2

/-- C3 witness: bare kings, white to move. -/
theorem c3_legality_soundness_witness :
    ((if (loadFen (strL "k7/8/8/8/8/8/8/K7 w - - 0 1")).whiteToPlay
      then (loadFen (strL "k7/8/8/8/8/8/8/K7 w - - 0 1")).kingWhite
      else (loadFen (strL "k7/8/8/8/8/8/8/K7 w - - 0 1")).kingBlack) = some (7, 0)) ∧
    ((loadFen (strL "k7/8/8/8/8/8/8/K7 w - - 0 1")).board 7 0 =
      if (loadFen (strL "k7/8/8/8/8/8/8/K7 w - - 0 1")).whiteToPlay then 6 else 12) ∧
    (∀ m ∈ getMoves (loadFen (strL "k7/8/8/8/8/8/8/K7 w - - 0 1")),
      isSquareAttackedB (simBoard (loadFen (strL "k7/8/8/8/8/8/8/K7 w - - 0 1")) m)
        (if (loadFen (strL "k7/8/8/8/8/8/8/K7 w - - 0 1")).board
            (squareToCoords m.fromSq).1 (squareToCoords m.fromSq).2 = 6 ∨
            (loadFen (strL "k7/8/8/8/8/8/8/K7 w - - 0 1")).board
            (squareToCoords m.fromSq).1 (squareToCoords m.fromSq).2 = 12
          then (squareToCoords m.toSq).1 else 7)
        (if (loadFen (strL "k7/8/8/8/8/8/8/K7 w - - 0 1")).board
            (squareToCoords m.fromSq).1 (squareToCoords m.fromSq).2 = 6 ∨
            (loadFen (strL "k7/8/8/8/8/8/8/K7 w - - 0 1")).board
            (squareToCoords m.fromSq).1 (squareToCoords m.fromSq).2 = 12
          then (squareToCoords m.toSq).2 else 0)
        (!(loadFen (strL "k7/8/8/8/8/8/8/K7 w - - 0 1")).whiteToPlay) = false) :=
  ⟨by decide, by decide,
    (c3_legality_soundness (loadFen (strL "k7/8/8/8/8/8/8/K7 w - - 0 1")) 7 0
      (by decide) (by decide)).1⟩

/-!  ## FEN round-trip lemmas (for C2) -/

theorem splitCh_sepfree (sep : Char) (l : Str) (h : sep ∉ l) :
    splitCh sep l = [l] := by
  induction l with
  | nil => rfl
  | cons c rest ih =>
    unfold splitCh
    rw [if_neg (fun (hc : c = sep) => h (hc ▸ List.mem_cons_self c rest))]
    rw [ih (fun hm => h (List.mem_cons_of_mem c hm))]

theorem splitCh_append (sep : Char) (a b : Str) (ha : sep ∉ a) :
    splitCh sep (a ++ sep :: b) = a :: splitCh sep b := by
  induction a with
  | nil =>
    show splitCh sep (sep :: b) = [] :: splitCh sep b
    conv_lhs => rw [splitCh]
    rw [if_pos rfl]
  | cons c a' ih =>
    have hc : c ≠ sep := fun (hc : c = sep) => ha (hc ▸ List.mem_cons_self c a')
    have ha' : sep ∉ a' := fun hm => ha (List.mem_cons_of_mem c hm)
    show splitCh sep (c :: (a' ++ sep :: b)) = (c :: a') :: splitCh sep b
    conv_lhs => rw [splitCh]
    rw [if_neg hc, ih ha']

theorem digitCh_digit (n : Nat) (h : n ≤ 9) :
    isDigitCh (digitCh n) = true ∧ digitNat (digitCh n) = n := by
  interval_cases n <;> exact ⟨rfl, rfl⟩

theorem digitCh_ne (n : Nat) (h : n ≤ 9) : digitCh n ≠ ' ' ∧ digitCh n ≠ '/' := by
  interval_cases n <;> exact ⟨by decide, by decide⟩

theorem pieceCh_spec (p : Nat) (ch : Char) (hp : p ≤ 12) (h : pieceCh p = some ch) :
    isDigitCh ch = false ∧ pieceOfCh ch = p ∧ ch ≠ ' ' ∧ ch ≠ '/' := by
  interval_cases p <;> simp_all [pieceCh] <;> subst h <;> exact ⟨rfl, rfl, by decide, by decide⟩

theorem pieceCh_none (p : Nat) (hp : p ≤ 12) (h : pieceCh p = none) : p = 0 := by
  interval_cases p <;> simp_all [pieceCh]

theorem serRow_chars (cells : List Nat) (e : Nat)
    (hc : ∀ p ∈ cells, p ≤ 12) (hl : e + cells.length ≤ 8) :
    ' ' ∉ serRow cells e ∧ '/' ∉ serRow cells e := by
  induction cells generalizing e with
  | nil =>
    unfold serRow
    by_cases he : 0 < e
    · rw [if_pos he]
      have hd := digitCh_ne e (by simp at hl; omega)
      simp only [List.mem_singleton]
      exact ⟨fun h => hd.1 h.symm, fun h => hd.2 h.symm⟩
    · rw [if_neg he]
      simp
  | cons p rest ih =>
    unfold serRow
    cases hpc : pieceCh p with
    | none =>
      exact ih (e + 1) (fun q hq => hc q (List.mem_cons_of_mem p hq))
        (by simp at hl ⊢; omega)
    | some ch =>
      have hch := pieceCh_spec p ch (hc p (List.mem_cons_self p rest)) hpc
      have hrest := ih 0 (fun q hq => hc q (List.mem_cons_of_mem p hq))
        (by simp at hl ⊢; omega)
      have hd : digitCh e ≠ ' ' ∧ digitCh e ≠ '/' :=
        digitCh_ne e (by simp at hl; omega)
      constructor <;> intro hmem <;>
        rcases List.mem_append.mp hmem with hm | hm
      · by_cases he : 0 < e
        · rw [if_pos he] at hm
          exact hd.1 (List.mem_singleton.mp hm).symm
        · rw [if_neg he] at hm
          cases hm
      · rcases List.mem_cons.mp hm with hh | hh
        · exact hch.2.2.1 hh.symm
        · exact hrest.1 hh
      · by_cases he : 0 < e
        · rw [if_pos he] at hm
          exact hd.2 (List.mem_singleton.mp hm).symm
        · rw [if_neg he] at hm
          cases hm
      · rcases List.mem_cons.mp hm with hh | hh
        · exact hch.2.2.2 hh.symm
        · exact hrest.2 hh

theorem rowCells_serRow (cells : List Nat) (e : Nat)
    (hc : ∀ p ∈ cells, p ≤ 12) (hl : e + cells.length ≤ 8) :
    rowCells (serRow cells e) = List.replicate e 0 ++ cells := by
  induction cells generalizing e with
  | nil =>
    unfold serRow
    by_cases he : 0 < e
    · rw [if_pos he]
      have hd := digitCh_digit e (by simp at hl; omega)
      conv_lhs => rw [rowCells]
      rw [if_pos hd.1, hd.2]
      simp [rowCells]
    · rw [if_neg he]
      have he0 : e = 0 := by omega
      subst he0
      simp [rowCells]
  | cons p rest ih =>
    unfold serRow
    cases hpc : pieceCh p with
    | none =>
      have hp0 : p = 0 := pieceCh_none p (hc p (List.mem_cons_self p rest)) hpc
      rw [ih (e + 1) (fun q hq => hc q (List.mem_cons_of_mem p hq))
        (by simp at hl ⊢; omega)]
      rw [hp0, List.replicate_succ']
      simp
    | some ch =>
      have hch := pieceCh_spec p ch (hc p (List.mem_cons_self p rest)) hpc
      have hrest := ih 0 (fun q hq => hc q (List.mem_cons_of_mem p hq))
        (by simp at hl ⊢; omega)
      have hnd : ¬(isDigitCh ch = true) := by simp [hch.1]
      by_cases he : 0 < e
      · rw [if_pos he]
        have hd := digitCh_digit e (by simp at hl; omega)
        dsimp only
        rw [List.singleton_append]
        conv_lhs => rw [rowCells]
        rw [if_pos hd.1, hd.2]
        conv_lhs => rw [rowCells]
        rw [if_neg hnd, hch.2.1, hrest]
        simp
      · rw [if_neg he]
        have he0 : e = 0 := by omega
        subst he0
        dsimp only
        rw [List.nil_append]
        conv_lhs => rw [rowCells]
        rw [if_neg hnd, hch.2.1, hrest]
        simp

theorem natToStrAux_no_space (fuel n : Nat) : ' ' ∉ natToStrAux fuel n := by
  induction fuel generalizing n with
  | zero => simp [natToStrAux]
  | succ fuel ih =>
    unfold natToStrAux
    by_cases h : n < 10
    · rw [if_pos h]
      intro hm
      have : ' ' = digitCh n := List.mem_singleton.mp hm
      interval_cases n <;> exact absurd this (by decide)
    · rw [if_neg h]
      intro hm
      rcases List.mem_append.mp hm with hm | hm
      · exact ih (n / 10) hm
      · have : ' ' = digitCh (n % 10) := List.mem_singleton.mp hm
        have h10 : n % 10 < 10 := Nat.mod_lt n (by omega)
        revert this
        interval_cases hval : n % 10 <;> exact fun hs => absurd hs (by decide)

theorem intToStr_no_space (i : Int) : ' ' ∉ intToStr i := by
  unfold intToStr
  by_cases h : i < 0
  · rw [if_pos h]
    intro hm
    rcases List.mem_cons.mp hm with hm | hm
    · exact absurd hm (by decide)
    · exact natToStrAux_no_space _ _ hm
  · rw [if_neg h]
    exact natToStrAux_no_space _ _

theorem mem_ite_singleton {c : Prop} [Decidable c] {ch x : Char}
    (h : x ∈ (if c then [ch] else [] : Str)) : x = ch := by
  split at h
  · exact List.mem_singleton.mp h
  · cases h

theorem castlingStr_no_space (cr : Nat) : ' ' ∉ castlingStr cr := by
  unfold castlingStr
  dsimp only
  by_cases hnil : (if cr &&& 1 ≠ 0 then ['K'] else []) ++
      (if cr &&& 2 ≠ 0 then ['Q'] else []) ++
      (if cr &&& 4 ≠ 0 then ['k'] else []) ++
      (if cr &&& 8 ≠ 0 then ['q'] else []) = ([] : Str)
  · rw [if_pos hnil]
    decide
  · rw [if_neg hnil]
    intro hm
    rcases List.mem_append.mp hm with hm | hm
    · rcases List.mem_append.mp hm with hm | hm
      · rcases List.mem_append.mp hm with hm | hm
        · exact absurd (mem_ite_singleton hm) (by decide)
        · exact absurd (mem_ite_singleton hm) (by decide)
      · exact absurd (mem_ite_singleton hm) (by decide)
    · exact absurd (mem_ite_singleton hm) (by decide)

theorem rowOf_le12 (pos : Position)
    (hpieces : ∀ r c : Int, 0 ≤ r → r < 8 → 0 ≤ c → c < 8 → pos.board r c ≤ 12)
    (n : Nat) (hn : n < 8) : ∀ p ∈ rowOf pos n, p ≤ 12 := by
  intro p hp
  unfold rowOf at hp
  have hb : ∀ c : Int, 0 ≤ c → c < 8 → pos.board n c ≤ 12 := fun c h1 h2 =>
    hpieces n c (by omega) (by exact_mod_cast hn) h1 h2
  fin_cases hp <;> exact hb _ (by omega) (by omega)

theorem placementStr_expand (pos : Position) :
    placementStr pos =
      serRow (rowOf pos 0) 0 ++ '/' :: (serRow (rowOf pos 1) 0 ++ '/' ::
        (serRow (rowOf pos 2) 0 ++ '/' :: (serRow (rowOf pos 3) 0 ++ '/' ::
        (serRow (rowOf pos 4) 0 ++ '/' :: (serRow (rowOf pos 5) 0 ++ '/' ::
        (serRow (rowOf pos 6) 0 ++ '/' :: (serRow (rowOf pos 7) 0 ++ []))))))) := by
  unfold placementStr
  simp [List.range_succ, List.append_assoc]

theorem placementStr_split (pos : Position)
    (hpieces : ∀ r c : Int, 0 ≤ r → r < 8 → 0 ≤ c → c < 8 → pos.board r c ≤ 12) :
    splitCh '/' (placementStr pos) =
      [serRow (rowOf pos 0) 0, serRow (rowOf pos 1) 0, serRow (rowOf pos 2) 0,
       serRow (rowOf pos 3) 0, serRow (rowOf pos 4) 0, serRow (rowOf pos 5) 0,
       serRow (rowOf pos 6) 0, serRow (rowOf pos 7) 0] := by
  have hs : ∀ n : Nat, n < 8 → '/' ∉ serRow (rowOf pos n) 0 := by
    intro n hn
    exact (serRow_chars (rowOf pos n) 0 (rowOf_le12 pos hpieces n hn) (by rfl)).2
  rw [placementStr_expand]
  rw [splitCh_append _ _ _ (hs 0 (by omega)), splitCh_append _ _ _ (hs 1 (by omega)),
    splitCh_append _ _ _ (hs 2 (by omega)), splitCh_append _ _ _ (hs 3 (by omega)),
    splitCh_append _ _ _ (hs 4 (by omega)), splitCh_append _ _ _ (hs 5 (by omega)),
    splitCh_append _ _ _ (hs 6 (by omega))]
  rw [List.append_nil, splitCh_sepfree _ _ (hs 7 (by omega))]

theorem placementStr_no_space (pos : Position)
    (hpieces : ∀ r c : Int, 0 ≤ r → r < 8 → 0 ≤ c → c < 8 → pos.board r c ≤ 12) :
    ' ' ∉ placementStr pos := by
  have hs : ∀ n : Nat, n < 8 → ' ' ∉ serRow (rowOf pos n) 0 := by
    intro n hn
    exact (serRow_chars (rowOf pos n) 0 (rowOf_le12 pos hpieces n hn) (by rfl)).1
  rw [placementStr_expand]
  intro hm
  simp only [List.mem_append, List.mem_cons, List.append_nil] at hm
  rcases hm with h | h | h | h | h | h | h | h | h | h | h | h | h | h | h <;>
    first
      | exact hs 0 (by omega) h
      | exact hs 1 (by omega) h
      | exact hs 2 (by omega) h
      | exact hs 3 (by omega) h
      | exact hs 4 (by omega) h
      | exact hs 5 (by omega) h
      | exact hs 6 (by omega) h
      | exact hs 7 (by omega) h
      | exact absurd h (by decide)

theorem getFen_parts (pos : Position)
    (hpieces : ∀ r c : Int, 0 ≤ r → r < 8 → 0 ≤ c → c < 8 → pos.board r c ≤ 12)
    (hep : ∀ s, pos.enPassant = some s → s ≠ [] ∧ ' ' ∉ lowerStr s) :
    splitCh ' ' (getFen pos) =
      [placementStr pos, if pos.whiteToPlay then ['w'] else ['b'],
       castlingStr pos.castlingRights, epStr pos.enPassant,
       intToStr pos.halfmove, intToStr pos.fullmove] := by
  have hside : ' ' ∉ (if pos.whiteToPlay then (['w'] : Str) else ['b']) := by
    cases pos.whiteToPlay <;> simp
  have hepf : ' ' ∉ epStr pos.enPassant := by
    cases hoe : pos.enPassant with
    | none => decide
    | some sq =>
      unfold epStr
      dsimp only
      rcases hep sq hoe with ⟨hne, hsp⟩
      rw [if_neg hne]
      exact hsp
  unfold getFen
  simp only [List.append_assoc, List.cons_append]
  rw [splitCh_append _ _ _ (placementStr_no_space pos hpieces),
    splitCh_append _ _ _ hside,
    splitCh_append _ _ _ (castlingStr_no_space _),
    splitCh_append _ _ _ hepf,
    splitCh_append _ _ _ (intToStr_no_space _),
    splitCh_sepfree _ _ (intToStr_no_space _)]

theorem rowsGetD (pos : Position) (n : Nat) (h : n < 8) :
    ([serRow (rowOf pos 0) 0, serRow (rowOf pos 1) 0, serRow (rowOf pos 2) 0,
      serRow (rowOf pos 3) 0, serRow (rowOf pos 4) 0, serRow (rowOf pos 5) 0,
      serRow (rowOf pos 6) 0, serRow (rowOf pos 7) 0].getD n []) =
      serRow (rowOf pos n) 0 := by
  interval_cases n <;> rfl

theorem rowOfGetD (pos : Position) (n m : Nat) (hm : m < 8) :
    (rowOf pos n).getD m 0 = pos.board (n : Int) (m : Int) := by
  interval_cases m <;> rfl

theorem castlingStr_reload :
    ∀ cr : Nat, cr < 16 →
      ((if 'K' ∈ castlingStr cr then 1 else 0) |||
       (if 'Q' ∈ castlingStr cr then 2 else 0) |||
       (if 'k' ∈ castlingStr cr then 4 else 0) |||
       (if 'q' ∈ castlingStr cr then 8 else 0)) = cr := by decide

/-- C2 (amended): reloading a FEN the engine serialized restores the
board, the side to move and the castling rights exactly, and restores
the en-passant field up to lowercasing — the reloaded field is the
lowercased original, because `get_fen` lowercases the stored target.
The hypotheses are the shape invariants every engine-made position
satisfies: piece codes at most 12, rights below 16, and an en-passant
value that is a non-empty square name. -/
theorem c2_fen_roundtrip_amended (pos : Position)
    (hpieces : ∀ n : Nat, n < 8 → ∀ m : Nat, m < 8 → pos.board (n : Int) (m : Int) ≤ 12)
    (hcr : pos.castlingRights < 16)
    (hep : ∀ s, pos.enPassant = some s →
      s ≠ [] ∧ ' ' ∉ lowerStr s ∧ lowerStr s ≠ ['-']) :
    (∀ r c : Int, 0 ≤ r → r < 8 → 0 ≤ c → c < 8 →
      (loadFen (getFen pos)).board r c = pos.board r c) ∧
    (loadFen (getFen pos)).whiteToPlay = pos.whiteToPlay ∧
    (loadFen (getFen pos)).castlingRights = pos.castlingRights ∧
    (loadFen (getFen pos)).enPassant = Option.map lowerStr pos.enPassant := by
  have hpJ : ∀ r c : Int, 0 ≤ r → r < 8 → 0 ≤ c → c < 8 → pos.board r c ≤ 12 := by
    intro r c h1 h2 h3 h4
    obtain ⟨n, rfl⟩ : ∃ n : Nat, r = (n : Int) := ⟨r.toNat, by omega⟩
    obtain ⟨m, rfl⟩ : ∃ m : Nat, c = (m : Int) := ⟨c.toNat, by omega⟩
    exact hpieces n (by omega) m (by omega)
  have hparts := getFen_parts pos hpJ (fun s hs => ⟨(hep s hs).1, (hep s hs).2.1⟩)
  refine ⟨?_, ?_, ?_, ?_⟩
  · intro r c hr0 hr8 hc0 hc8
    have hb : (loadFen (getFen pos)).board =
        boardOfRows (splitCh '/' ((splitCh ' ' (getFen pos)).getD 0 [])) := rfl
    rw [hb, hparts]
    show boardOfRows (splitCh '/' (placementStr pos)) r c = pos.board r c
    rw [placementStr_split pos hpJ]
    unfold boardOfRows
    rw [if_pos ⟨hr0, hr8, hc0, hc8⟩]
    obtain ⟨n, rfl⟩ : ∃ n : Nat, r = (n : Int) := ⟨r.toNat, by omega⟩
    obtain ⟨m, rfl⟩ : ∃ m : Nat, c = (m : Int) := ⟨c.toNat, by omega⟩
    have hn8 : n < 8 := by omega
    have hm8 : m < 8 := by omega
    simp only [Int.toNat_natCast]
    rw [rowsGetD pos n hn8,
      rowCells_serRow (rowOf pos n) 0 (rowOf_le12 pos hpJ n hn8) (by unfold rowOf; simp),
      List.replicate, List.nil_append, rowOfGetD pos n m hm8]
  · have hw : (loadFen (getFen pos)).whiteToPlay =
        decide (((splitCh ' ' (getFen pos)).getD 1 ([] : Str)) = ['w']) := rfl
    rw [hw, hparts]
    cases pos.whiteToPlay <;> rfl
  · have hc : (loadFen (getFen pos)).castlingRights =
        ((if 'K' ∈ (splitCh ' ' (getFen pos)).getD 2 [] then 1 else 0) |||
         (if 'Q' ∈ (splitCh ' ' (getFen pos)).getD 2 [] then 2 else 0) |||
         (if 'k' ∈ (splitCh ' ' (getFen pos)).getD 2 [] then 4 else 0) |||
         (if 'q' ∈ (splitCh ' ' (getFen pos)).getD 2 [] then 8 else 0)) := rfl
    rw [hc, hparts]
    show ((if 'K' ∈ castlingStr pos.castlingRights then 1 else 0) ||| _ ||| _ ||| _) = _
    exact castlingStr_reload pos.castlingRights hcr
  · have he : (loadFen (getFen pos)).enPassant =
        (if (splitCh ' ' (getFen pos)).getD 3 [] = ['-'] then none
         else some ((splitCh ' ' (getFen pos)).getD 3 [])) := rfl
    rw [he, hparts]
    show (if epStr pos.enPassant = ['-'] then none else some (epStr pos.enPassant)) =
      Option.map lowerStr pos.enPassant
    cases hoe : pos.enPassant with
    | none => rfl
    | some sq =>
      rcases hep sq hoe with ⟨hne, _, hnd⟩
      have hes : epStr (some sq) = lowerStr sq := by
        unfold epStr
        dsimp only
        rw [if_neg hne]
      rw [hes, if_neg hnd]
      rfl

/-- C2 counterexample: the engine's own double-push move stores the
en-passant target uppercase (`"E3"`), `get_fen` emits it lowercased,
and `load_fen` keeps the lowercase string — so reloading the engine's
own FEN does not restore the en-passant field exactly. -/
theorem c2_fen_roundtrip_counterexample :
    (makeMove (loadFen (strL "k7/8/8/8/8/8/4P3/K7 w - - 0 1"))
      ⟨strL "E2", strL "E4", none⟩ true).2.enPassant = some (strL "E3") ∧
    (loadFen (getFen (makeMove (loadFen (strL "k7/8/8/8/8/8/4P3/K7 w - - 0 1"))
      ⟨strL "E2", strL "E4", none⟩ true).2)).enPassant = some (strL "e3") ∧
    (loadFen (getFen (makeMove (loadFen (strL "k7/8/8/8/8/8/4P3/K7 w - - 0 1"))
      ⟨strL "E2", strL "E4", none⟩ true).2)).enPassant ≠
      (makeMove (loadFen (strL "k7/8/8/8/8/8/4P3/K7 w - - 0 1"))
        ⟨strL "E2", strL "E4", none⟩ true).2.enPassant := by
  refine ⟨by decide, by decide, by decide⟩

/-- C2 witness: the engine-made position after a double push (en
passant target `"E3"`), with all round-trip hypotheses discharged
concretely. -/
theorem c2_fen_roundtrip_amended_witness :
    (∀ n : Nat, n < 8 → ∀ m : Nat, m < 8 →
      (makeMove (loadFen (strL "k7/8/8/8/8/8/4P3/K7 w - - 0 1"))
        ⟨strL "E2", strL "E4", none⟩ true).2.board (n : Int) (m : Int) ≤ 12) ∧
    (makeMove (loadFen (strL "k7/8/8/8/8/8/4P3/K7 w - - 0 1"))
      ⟨strL "E2", strL "E4", none⟩ true).2.castlingRights < 16 ∧
    (∀ s, (makeMove (loadFen (strL "k7/8/8/8/8/8/4P3/K7 w - - 0 1"))
        ⟨strL "E2", strL "E4", none⟩ true).2.enPassant = some s →
      s ≠ [] ∧ ' ' ∉ lowerStr s ∧ lowerStr s ≠ ['-']) ∧
    ((∀ r c : Int, 0 ≤ r → r < 8 → 0 ≤ c → c < 8 →
      (loadFen (getFen (makeMove (loadFen (strL "k7/8/8/8/8/8/4P3/K7 w - - 0 1"))
        ⟨strL "E2", strL "E4", none⟩ true).2)).board r c =
      (makeMove (loadFen (strL "k7/8/8/8/8/8/4P3/K7 w - - 0 1"))
        ⟨strL "E2", strL "E4", none⟩ true).2.board r c) ∧
    (loadFen (getFen (makeMove (loadFen (strL "k7/8/8/8/8/8/4P3/K7 w - - 0 1"))
      ⟨strL "E2", strL "E4", none⟩ true).2)).whiteToPlay =
      (makeMove (loadFen (strL "k7/8/8/8/8/8/4P3/K7 w - - 0 1"))
        ⟨strL "E2", strL "E4", none⟩ true).2.whiteToPlay ∧
    (loadFen (getFen (makeMove (loadFen (strL "k7/8/8/8/8/8/4P3/K7 w - - 0 1"))
      ⟨strL "E2", strL "E4", none⟩ true).2)).castlingRights =
      (makeMove (loadFen (strL "k7/8/8/8/8/8/4P3/K7 w - - 0 1"))
        ⟨strL "E2", strL "E4", none⟩ true).2.castlingRights ∧
    (loadFen (getFen (makeMove (loadFen (strL "k7/8/8/8/8/8/4P3/K7 w - - 0 1"))
      ⟨strL "E2", strL "E4", none⟩ true).2)).enPassant =
      Option.map lowerStr (makeMove (loadFen (strL "k7/8/8/8/8/8/4P3/K7 w - - 0 1"))
        ⟨strL "E2", strL "E4", none⟩ true).2.enPassant) :=
  ⟨by decide, by decide,
    fun s hs => by
      have hP : (makeMove (loadFen (strL "k7/8/8/8/8/8/4P3/K7 w - - 0 1"))
          ⟨strL "E2", strL "E4", none⟩ true).2.enPassant = some (strL "E3") := by decide
      rw [hP] at hs
      injection hs with hv
      subst hv
      exact ⟨by decide, by decide, by decide⟩,
    c2_fen_roundtrip_amended _ (by decide) (by decide)
      (fun s hs => by
        have hP : (makeMove (loadFen (strL "k7/8/8/8/8/8/4P3/K7 w - - 0 1"))
            ⟨strL "E2", strL "E4", none⟩ true).2.enPassant = some (strL "E3") := by decide
        rw [hP] at hs
        injection hs with hv
        subst hv
        exact ⟨by decide, by decide, by decide⟩)⟩

/-!  ## Board-level update algebra (for C1) -/

/-- The board effect of one `set_piece` call (bounds-guarded write). -/
def updB (p : Nat) (sq : Str) (b : IBoard) : IBoard :=
  if sq = [] then b
  else if 0 ≤ (squareToCoords sq).1 ∧ (squareToCoords sq).1 < 8 ∧
      0 ≤ (squareToCoords sq).2 ∧ (squareToCoords sq).2 < 8 then
    bupd b (squareToCoords sq).1 (squareToCoords sq).2 p
  else b

theorem setPiece_board (p : Nat) (sq : Str) (pos : Position) :
    (setPiece p sq pos).board = updB p sq pos.board := by
  unfold setPiece updB
  by_cases h1 : sq = []
  · rw [if_pos h1, if_pos h1]
  · rw [if_neg h1, if_neg h1]
    by_cases h2 : 0 ≤ (squareToCoords sq).1 ∧ (squareToCoords sq).1 < 8 ∧
        0 ≤ (squareToCoords sq).2 ∧ (squareToCoords sq).2 < 8
    · rw [if_pos h2, if_pos h2]
    · rw [if_neg h2, if_neg h2]

theorem getPiece_eq (pos : Position) (sq : Str) :
    getPiece pos sq =
      if sq = [] then 0
      else if 0 ≤ (squareToCoords sq).1 ∧ (squareToCoords sq).1 < 8 ∧
          0 ≤ (squareToCoords sq).2 ∧ (squareToCoords sq).2 < 8 then
        pos.board (squareToCoords sq).1 (squareToCoords sq).2
      else 0 := rfl

/-- Restoration of a standard two-square move: writing `x` onto the
destination and clearing the source, then undoing by rewriting the
recorded source and destination contents, is the identity — whatever
was written en route. -/
theorem updB_normal_restore (B : IBoard) (fromSq toSq : Str) (f t x : Nat)
    (hf : f = (if fromSq = [] then 0
      else if 0 ≤ (squareToCoords fromSq).1 ∧ (squareToCoords fromSq).1 < 8 ∧
          0 ≤ (squareToCoords fromSq).2 ∧ (squareToCoords fromSq).2 < 8 then
        B (squareToCoords fromSq).1 (squareToCoords fromSq).2 else 0))
    (ht : t = (if toSq = [] then 0
      else if 0 ≤ (squareToCoords toSq).1 ∧ (squareToCoords toSq).1 < 8 ∧
          0 ≤ (squareToCoords toSq).2 ∧ (squareToCoords toSq).2 < 8 then
        B (squareToCoords toSq).1 (squareToCoords toSq).2 else 0))
    (r c : Int) :
    updB t toSq (updB f fromSq (updB 0 fromSq (updB x toSq B))) r c = B r c := by
  unfold updB bupd
  split_ifs <;> ((try simp_all) <;> (try (split_ifs <;> simp_all)))

/-- Evaluating a guarded write at its own (valid) square. -/
theorem updB_hit (p : Nat) (sq : Str) (b : IBoard) (r c : Int)
    (hne : sq ≠ [])
    (hb : 0 ≤ (squareToCoords sq).1 ∧ (squareToCoords sq).1 < 8 ∧
      0 ≤ (squareToCoords sq).2 ∧ (squareToCoords sq).2 < 8)
    (hrc : r = (squareToCoords sq).1 ∧ c = (squareToCoords sq).2) :
    updB p sq b r c = p := by
  unfold updB
  rw [if_neg hne, if_pos hb]
  unfold bupd
  rw [if_pos hrc]

/-- Evaluating a guarded write away from its square. -/
theorem updB_miss (p : Nat) (sq : Str) (b : IBoard) (r c : Int)
    (h : ¬(r = (squareToCoords sq).1 ∧ c = (squareToCoords sq).2)) :
    updB p sq b r c = b r c := by
  unfold updB
  by_cases h1 : sq = []
  · rw [if_pos h1]
  · rw [if_neg h1]
    by_cases h2 : 0 ≤ (squareToCoords sq).1 ∧ (squareToCoords sq).1 < 8 ∧
        0 ≤ (squareToCoords sq).2 ∧ (squareToCoords sq).2 < 8
    · rw [if_pos h2]
      unfold bupd
      rw [if_neg h]
    · rw [if_neg h2]

/-- Restoration of an en-passant capture: the capture square is cleared
during the move and rewritten with the passed pawn `pw` on undo; with
all three squares valid and the recorded contents correct, the
composite is the identity. -/
theorem updB_ep_restore (B : IBoard) (fromSq toSq capSq : Str) (f t pw : Nat)
    (hfne : fromSq ≠ [])
    (hfb : 0 ≤ (squareToCoords fromSq).1 ∧ (squareToCoords fromSq).1 < 8 ∧
      0 ≤ (squareToCoords fromSq).2 ∧ (squareToCoords fromSq).2 < 8)
    (htne : toSq ≠ [])
    (htb : 0 ≤ (squareToCoords toSq).1 ∧ (squareToCoords toSq).1 < 8 ∧
      0 ≤ (squareToCoords toSq).2 ∧ (squareToCoords toSq).2 < 8)
    (hcne : capSq ≠ [])
    (hcb : 0 ≤ (squareToCoords capSq).1 ∧ (squareToCoords capSq).1 < 8 ∧
      0 ≤ (squareToCoords capSq).2 ∧ (squareToCoords capSq).2 < 8)
    (hf : f = B (squareToCoords fromSq).1 (squareToCoords fromSq).2)
    (ht : t = B (squareToCoords toSq).1 (squareToCoords toSq).2)
    (hcap : B (squareToCoords capSq).1 (squareToCoords capSq).2 = pw)
    (r c : Int) :
    updB pw capSq (updB t toSq (updB f fromSq
      (updB 0 fromSq (updB f toSq (updB 0 capSq B))))) r c = B r c := by
  by_cases hC : r = (squareToCoords capSq).1 ∧ c = (squareToCoords capSq).2
  · rw [updB_hit _ _ _ _ _ hcne hcb hC, hC.1, hC.2]
    exact hcap.symm
  · rw [updB_miss _ _ _ _ _ hC]
    by_cases hT : r = (squareToCoords toSq).1 ∧ c = (squareToCoords toSq).2
    · rw [updB_hit _ _ _ _ _ htne htb hT, ht, hT.1, hT.2]
    · rw [updB_miss _ _ _ _ _ hT]
      by_cases hF : r = (squareToCoords fromSq).1 ∧ c = (squareToCoords fromSq).2
      · rw [updB_hit _ _ _ _ _ hfne hfb hF, hf, hF.1, hF.2]
      · rw [updB_miss _ _ _ _ _ hF, updB_miss _ _ _ _ _ hF,
          updB_miss _ _ _ _ _ hT, updB_miss _ _ _ _ _ hC]

/-- Restoration of a castling move: king and rook are moved during the
move and moved back on undo; with the four squares valid and the
recorded contents correct (rook on its corner, rook-destination empty),
the composite is the identity. -/
theorem updB_castle_restore (B : IBoard) (kf kt rf rt : Str) (K R t : Nat)
    (hkfne : kf ≠ [])
    (hkfb : 0 ≤ (squareToCoords kf).1 ∧ (squareToCoords kf).1 < 8 ∧
      0 ≤ (squareToCoords kf).2 ∧ (squareToCoords kf).2 < 8)
    (hktne : kt ≠ [])
    (hktb : 0 ≤ (squareToCoords kt).1 ∧ (squareToCoords kt).1 < 8 ∧
      0 ≤ (squareToCoords kt).2 ∧ (squareToCoords kt).2 < 8)
    (hrfne : rf ≠ [])
    (hrfb : 0 ≤ (squareToCoords rf).1 ∧ (squareToCoords rf).1 < 8 ∧
      0 ≤ (squareToCoords rf).2 ∧ (squareToCoords rf).2 < 8)
    (hrtne : rt ≠ [])
    (hrtb : 0 ≤ (squareToCoords rt).1 ∧ (squareToCoords rt).1 < 8 ∧
      0 ≤ (squareToCoords rt).2 ∧ (squareToCoords rt).2 < 8)
    (hK : B (squareToCoords kf).1 (squareToCoords kf).2 = K)
    (ht : t = B (squareToCoords kt).1 (squareToCoords kt).2)
    (hRT : B (squareToCoords rt).1 (squareToCoords rt).2 = 0)
    (hRF : B (squareToCoords rf).1 (squareToCoords rf).2 = R)
    (r c : Int) :
    updB 0 rt (updB R rf (updB t kt (updB K kf
      (updB 0 rf (updB R rt (updB 0 kf (updB K kt B))))))) r c = B r c := by
  by_cases hRT' : r = (squareToCoords rt).1 ∧ c = (squareToCoords rt).2
  · rw [updB_hit _ _ _ _ _ hrtne hrtb hRT', hRT'.1, hRT'.2]
    exact hRT.symm
  · rw [updB_miss _ _ _ _ _ hRT']
    by_cases hRF' : r = (squareToCoords rf).1 ∧ c = (squareToCoords rf).2
    · rw [updB_hit _ _ _ _ _ hrfne hrfb hRF', hRF'.1, hRF'.2]
      exact hRF.symm
    · rw [updB_miss _ _ _ _ _ hRF']
      by_cases hKT' : r = (squareToCoords kt).1 ∧ c = (squareToCoords kt).2
      · rw [updB_hit _ _ _ _ _ hktne hktb hKT', ht, hKT'.1, hKT'.2]
      · rw [updB_miss _ _ _ _ _ hKT']
        by_cases hKF' : r = (squareToCoords kf).1 ∧ c = (squareToCoords kf).2
        · rw [updB_hit _ _ _ _ _ hkfne hkfb hKF', hKF'.1, hKF'.2]
          exact hK.symm
        · rw [updB_miss _ _ _ _ _ hKF', updB_miss _ _ _ _ _ hRF',
            updB_miss _ _ _ _ _ hRT', updB_miss _ _ _ _ _ hKF',
            updB_miss _ _ _ _ _ hKT']

/-- Splitting membership in an `if` between its branches. -/
theorem mem_ite_or {α : Type} {a : α} {c : Prop} [Decidable c] {l1 l2 : List α}
    (h : a ∈ if c then l1 else l2) : a ∈ l1 ∨ a ∈ l2 := by
  split at h
  · exact Or.inl h
  · exact Or.inr h

/-- Every move produced by `rayMoves` has the given from-square. -/
theorem rayMoves_fromSq (bd : IBoard) (fromSq : Str) (fS fE eS eE : Nat)
    (dr dc : Int) :
    ∀ fuel (nr nc : Int), ∀ m ∈ rayMoves bd fromSq fS fE eS eE dr dc fuel nr nc,
      m.fromSq = fromSq := by
  intro fuel
  induction fuel with
  | zero =>
    intro nr nc m hm
    exact absurd hm (List.not_mem_nil _)
  | succ fuel ih =>
    intro nr nc m hm
    unfold rayMoves at hm
    dsimp only at hm
    repeat'
      first
        | (exact absurd hm (List.not_mem_nil _))
        | (exact ih _ _ _ hm)
        | (rcases List.mem_cons.mp hm with hm | hm)
        | (rcases mem_ite_or hm with hm | hm)
    all_goals rw [hm]

/-- Every move produced by `slidingGen` has the given from-square. -/
theorem slidingGen_fromSq (pos : Position) (r c : Int) (fromSq : Str)
    (isWhite : Bool) (dirs : List (Int × Int)) :
    ∀ m ∈ slidingGen pos r c fromSq isWhite dirs, m.fromSq = fromSq := by
  intro m hm
  unfold slidingGen at hm
  rw [List.mem_flatMap] at hm
  obtain ⟨d, _, hm⟩ := hm
  exact rayMoves_fromSq _ _ _ _ _ _ _ _ _ _ _ _ hm

/-- Every move produced by `stepGen` has the given from-square. -/
theorem stepGen_fromSq (pos : Position) (r c : Int) (fromSq : Str)
    (isWhite : Bool) (offs : List (Int × Int)) :
    ∀ m ∈ stepGen pos r c fromSq isWhite offs, m.fromSq = fromSq := by
  intro m hm
  obtain ⟨o, _, hm⟩ := stepGen_to _ _ _ _ _ _ _ hm
  rw [hm]

/-- Every move produced by `pawnGen` has the given from-square. -/
theorem pawnGen_fromSq (pos : Position) (r c : Int) (fromSq : Str)
    (isWhite : Bool) :
    ∀ m ∈ pawnGen pos r c fromSq isWhite, m.fromSq = fromSq := by
  intro m hm
  unfold pawnGen at hm
  dsimp only at hm
  repeat'
    first
      | (exact absurd hm (List.not_mem_nil _))
      | (rcases List.mem_cons.mp hm with hm | hm)
      | (rcases List.mem_append.mp hm with hm | hm)
      | (rcases mem_ite_or hm with hm | hm)
      | (obtain ⟨d, hd, hm⟩ := List.mem_flatMap.mp hm)
      | (obtain ⟨pp, hpp, hm⟩ := List.mem_map.mp hm; rw [← hm])
      | (split at hm)
  all_goals rw [hm]

/-- Every move produced by `kingGen` has the given from-square. -/
theorem kingGen_fromSq (pos : Position) (r c : Int) (fromSq : Str)
    (isWhite : Bool) :
    ∀ m ∈ kingGen pos r c fromSq isWhite, m.fromSq = fromSq := by
  intro m hm
  unfold kingGen at hm
  repeat'
    first
      | (exact absurd hm (List.not_mem_nil _))
      | (exact stepGen_fromSq _ _ _ _ _ _ _ hm)
      | (rcases List.mem_cons.mp hm with hm | hm)
      | (rcases List.mem_append.mp hm with hm | hm)
      | (rcases mem_ite_or hm with hm | hm)
  all_goals rw [hm]

/-- Every move produced by `genForPiece` starts from the scanned square. -/
theorem genForPiece_fromSq (pos : Position) (r c : Int) (p : Nat) :
    ∀ m ∈ genForPiece pos r c p, m.fromSq = coordsToSquare r c := by
  intro m hm
  unfold genForPiece at hm
  dsimp only at hm
  repeat'
    first
      | (exact absurd hm (List.not_mem_nil _))
      | (exact pawnGen_fromSq _ _ _ _ _ _ hm)
      | (exact slidingGen_fromSq _ _ _ _ _ _ _ hm)
      | (exact stepGen_fromSq _ _ _ _ _ _ _ hm)
      | (exact kingGen_fromSq _ _ _ _ _ _ hm)
      | (rcases mem_ite_or hm with hm | hm)

/-- The square names of all 64 scanned coordinates are nonempty, decode
back to their coordinates, and the coordinates are in range. -/
theorem coordProps : ∀ rc ∈ coordList,
    coordsToSquare rc.1 rc.2 ≠ [] ∧
    squareToCoords (coordsToSquare rc.1 rc.2) = rc ∧
    0 ≤ rc.1 ∧ rc.1 < 8 ∧ 0 ≤ rc.2 ∧ rc.2 < 8 := by
  decide

/-- Inversion of the square scan: a pseudo-legal move comes from some
scanned square holding a nonzero piece of the side to move. -/
theorem pseudoMoves_inv (pos : Position) (m : Move)
    (hm : m ∈ pseudoMoves pos) :
    ∃ rc ∈ coordList,
      (pos.board rc.1 rc.2 ≠ 0 ∧
        decide (pos.board rc.1 rc.2 ≤ 6) = pos.whiteToPlay) ∧
      m ∈ genForPiece pos rc.1 rc.2 (pos.board rc.1 rc.2) := by
  unfold pseudoMoves at hm
  rw [List.mem_flatMap] at hm
  obtain ⟨rc, hrc, hm⟩ := hm
  dsimp only at hm
  split at hm
  · exact ⟨rc, hrc, by assumption, hm⟩
  · exact absurd hm (List.not_mem_nil _)

/-- Inversion of `get_moves`: every legal move is a pseudo-legal move
of some scanned square. -/
theorem getMoves_inv (pos : Position) (m : Move) (hm : m ∈ getMoves pos) :
    ∃ rc ∈ coordList,
      (pos.board rc.1 rc.2 ≠ 0 ∧
        decide (pos.board rc.1 rc.2 ≤ 6) = pos.whiteToPlay) ∧
      m ∈ genForPiece pos rc.1 rc.2 (pos.board rc.1 rc.2) := by
  unfold getMoves filterLegal at hm
  exact pseudoMoves_inv pos m (List.mem_filter.mp hm).1

/-- Reading a scanned square through the string codec gives the board
value directly. -/
theorem getPiece_coords (pos : Position) (rc : Int × Int)
    (h : rc ∈ coordList) :
    getPiece pos (coordsToSquare rc.1 rc.2) = pos.board rc.1 rc.2 := by
  obtain ⟨hne, hinv, hb⟩ := coordProps rc h
  rw [getPiece_eq, if_neg hne, hinv, if_pos hb]

/-- The castling flag of the castling block, as a predicate of the
arguments. -/
theorem castlePhase_flag (pos : Position) (f : Nat) (mv : Move) :
    (castlePhase pos f mv).2 = true ↔
      ((f = 6 ∧ mv.fromSq = strL "E1" ∧
         ((mv.toSq = strL "G1" ∧ pos.castlingRights &&& 1 ≠ 0) ∨
          (mv.toSq = strL "C1" ∧ pos.castlingRights &&& 2 ≠ 0))) ∨
       (f = 12 ∧ mv.fromSq = strL "E8" ∧
         ((mv.toSq = strL "G8" ∧ pos.castlingRights &&& 4 ≠ 0) ∨
          (mv.toSq = strL "C8" ∧ pos.castlingRights &&& 8 ≠ 0)))) := by
  unfold castlePhase
  by_cases h1 : f = 6 ∧ mv.fromSq = strL "E1"
  · rw [if_pos h1]
    by_cases h2 : mv.toSq = strL "G1" ∧ pos.castlingRights &&& 1 ≠ 0
    · rw [if_pos h2]
      exact iff_of_true rfl (Or.inl ⟨h1.1, h1.2, Or.inl h2⟩)
    · rw [if_neg h2]
      by_cases h3 : mv.toSq = strL "C1" ∧ pos.castlingRights &&& 2 ≠ 0
      · rw [if_pos h3]
        exact iff_of_true rfl (Or.inl ⟨h1.1, h1.2, Or.inr h3⟩)
      · rw [if_neg h3]
        refine iff_of_false Bool.false_ne_true ?_
        rintro (⟨_, _, hc | hc⟩ | ⟨h12, _, _⟩)
        · exact h2 hc
        · exact h3 hc
        · exact absurd (h1.1.symm.trans h12) (by decide)
  · rw [if_neg h1]
    by_cases h1' : f = 12 ∧ mv.fromSq = strL "E8"
    · rw [if_pos h1']
      by_cases h2 : mv.toSq = strL "G8" ∧ pos.castlingRights &&& 4 ≠ 0
      · rw [if_pos h2]
        exact iff_of_true rfl (Or.inr ⟨h1'.1, h1'.2, Or.inl h2⟩)
      · rw [if_neg h2]
        by_cases h3 : mv.toSq = strL "C8" ∧ pos.castlingRights &&& 8 ≠ 0
        · rw [if_pos h3]
          exact iff_of_true rfl (Or.inr ⟨h1'.1, h1'.2, Or.inr h3⟩)
        · rw [if_neg h3]
          refine iff_of_false Bool.false_ne_true ?_
          rintro (⟨h6, hE1, _⟩ | ⟨_, _, hc | hc⟩)
          · exact h1 ⟨h6, hE1⟩
          · exact h2 hc
          · exact h3 hc
    · rw [if_neg h1']
      refine iff_of_false Bool.false_ne_true ?_
      rintro (⟨h6, hE1, _⟩ | ⟨h12, hE8, _⟩)
      · exact h1 ⟨h6, hE1⟩
      · exact h1' ⟨h12, hE8⟩

/-- When the castling flag is clear the castling block leaves the
board untouched. -/
theorem castlePhase_board_false (pos : Position) (f : Nat) (mv : Move)
    (h : (castlePhase pos f mv).2 = false) :
    (castlePhase pos f mv).1.board = pos.board := by
  unfold castlePhase at h ⊢
  by_cases h1 : f = 6 ∧ mv.fromSq = strL "E1"
  · rw [if_pos h1] at h ⊢
    by_cases h2 : mv.toSq = strL "G1" ∧ pos.castlingRights &&& 1 ≠ 0
    · rw [if_pos h2] at h
      exact Bool.noConfusion h
    · rw [if_neg h2] at h ⊢
      by_cases h3 : mv.toSq = strL "C1" ∧ pos.castlingRights &&& 2 ≠ 0
      · rw [if_pos h3] at h
        exact Bool.noConfusion h
      · rw [if_neg h3]
  · rw [if_neg h1] at h ⊢
    by_cases h1' : f = 12 ∧ mv.fromSq = strL "E8"
    · rw [if_pos h1'] at h ⊢
      by_cases h2 : mv.toSq = strL "G8" ∧ pos.castlingRights &&& 4 ≠ 0
      · rw [if_pos h2] at h
        exact Bool.noConfusion h
      · rw [if_neg h2] at h ⊢
        by_cases h3 : mv.toSq = strL "C8" ∧ pos.castlingRights &&& 8 ≠ 0
        · rw [if_pos h3] at h
          exact Bool.noConfusion h
        · rw [if_neg h3]
    · rw [if_neg h1']

/-- White kingside castling block: the four board writes. -/
theorem castlePhase_board_WK (pos : Position) (f : Nat) (mv : Move)
    (h1 : f = 6) (h2 : mv.fromSq = strL "E1") (h3 : mv.toSq = strL "G1")
    (h4 : pos.castlingRights &&& 1 ≠ 0) :
    (castlePhase pos f mv).1.board =
      updB 0 (strL "H1") (updB 2 (strL "F1")
        (updB 0 (strL "E1") (updB 6 (strL "G1") pos.board))) := by
  unfold castlePhase
  rw [if_pos ⟨h1, h2⟩, if_pos ⟨h3, h4⟩]
  dsimp only
  rw [setPiece_board, setPiece_board, setPiece_board, setPiece_board]

/-- White queenside castling block: the four board writes. -/
theorem castlePhase_board_WQ (pos : Position) (f : Nat) (mv : Move)
    (h1 : f = 6) (h2 : mv.fromSq = strL "E1") (h3 : mv.toSq = strL "C1")
    (h4 : pos.castlingRights &&& 2 ≠ 0) :
    (castlePhase pos f mv).1.board =
      updB 0 (strL "A1") (updB 2 (strL "D1")
        (updB 0 (strL "E1") (updB 6 (strL "C1") pos.board))) := by
  have hng : ¬(mv.toSq = strL "G1" ∧ pos.castlingRights &&& 1 ≠ 0) :=
    fun hc => absurd (h3.symm.trans hc.1) (by decide)
  unfold castlePhase
  rw [if_pos ⟨h1, h2⟩, if_neg hng, if_pos ⟨h3, h4⟩]
  dsimp only
  rw [setPiece_board, setPiece_board, setPiece_board, setPiece_board]

/-- Black kingside castling block: the four board writes. -/
theorem castlePhase_board_BK (pos : Position) (f : Nat) (mv : Move)
    (h1 : f = 12) (h2 : mv.fromSq = strL "E8") (h3 : mv.toSq = strL "G8")
    (h4 : pos.castlingRights &&& 4 ≠ 0) :
    (castlePhase pos f mv).1.board =
      updB 0 (strL "H8") (updB 8 (strL "F8")
        (updB 0 (strL "E8") (updB 12 (strL "G8") pos.board))) := by
  have hn6 : ¬(f = 6 ∧ mv.fromSq = strL "E1") :=
    fun hc => absurd (h1.symm.trans hc.1) (by decide)
  unfold castlePhase
  rw [if_neg hn6, if_pos ⟨h1, h2⟩, if_pos ⟨h3, h4⟩]
  dsimp only
  rw [setPiece_board, setPiece_board, setPiece_board, setPiece_board]

/-- Black queenside castling block: the four board writes. -/
theorem castlePhase_board_BQ (pos : Position) (f : Nat) (mv : Move)
    (h1 : f = 12) (h2 : mv.fromSq = strL "E8") (h3 : mv.toSq = strL "C8")
    (h4 : pos.castlingRights &&& 8 ≠ 0) :
    (castlePhase pos f mv).1.board =
      updB 0 (strL "A8") (updB 8 (strL "D8")
        (updB 0 (strL "E8") (updB 12 (strL "C8") pos.board))) := by
  have hn6 : ¬(f = 6 ∧ mv.fromSq = strL "E1") :=
    fun hc => absurd (h1.symm.trans hc.1) (by decide)
  have hng : ¬(mv.toSq = strL "G8" ∧ pos.castlingRights &&& 4 ≠ 0) :=
    fun hc => absurd (h3.symm.trans hc.1) (by decide)
  unfold castlePhase
  rw [if_neg hn6, if_pos ⟨h1, h2⟩, if_neg hng, if_pos ⟨h3, h4⟩]
  dsimp only
  rw [setPiece_board, setPiece_board, setPiece_board, setPiece_board]

/-- For a non-pawn mover the en-passant block only clears the target:
no board write, flag clear. -/
theorem epPhase_nonpawn (pos : Position) (f : Nat) (mv : Move)
    (prevEp : Option Str) (h1 : f ≠ 1) (h7 : f ≠ 7) :
    (epPhase pos f mv prevEp).1.board = pos.board ∧
    (epPhase pos f mv prevEp).2 = false := by
  unfold epPhase
  rw [if_neg h1, if_neg h7]
  exact ⟨rfl, rfl⟩

/-- When the en-passant flag is clear the block leaves the board
untouched. -/
theorem epPhase_board_false (pos : Position) (f : Nat) (mv : Move)
    (prevEp : Option Str) (h : (epPhase pos f mv prevEp).2 = false) :
    (epPhase pos f mv prevEp).1.board = pos.board := by
  unfold epPhase at h ⊢
  by_cases h1 : f = 1
  · rw [if_pos h1] at h ⊢
    dsimp only at h ⊢
    by_cases h3 : prevEp = some mv.toSq ∧ sIdx mv.fromSq 0 ≠ sIdx mv.toSq 0
    · rw [if_pos h3] at h
      exact Bool.noConfusion h
    · rw [if_neg h3]
      by_cases h2 : sIdx mv.fromSq 1 = '2' ∧ sIdx mv.toSq 1 = '4'
      · rw [if_pos h2]
      · rw [if_neg h2]
  · rw [if_neg h1] at h ⊢
    by_cases h1' : f = 7
    · rw [if_pos h1'] at h ⊢
      dsimp only at h ⊢
      by_cases h3 : prevEp = some mv.toSq ∧ sIdx mv.fromSq 0 ≠ sIdx mv.toSq 0
      · rw [if_pos h3] at h
        exact Bool.noConfusion h
      · rw [if_neg h3]
        by_cases h2 : sIdx mv.fromSq 1 = '7' ∧ sIdx mv.toSq 1 = '5'
        · rw [if_pos h2]
        · rw [if_neg h2]
    · rw [if_neg h1']

/-- A white en-passant capture removes the passed pawn one rank below
the target. -/
theorem epPhase_board_white (pos : Position) (f : Nat) (mv : Move)
    (prevEp : Option Str) (h1 : f = 1)
    (h3 : prevEp = some mv.toSq ∧ sIdx mv.fromSq 0 ≠ sIdx mv.toSq 0) :
    (epPhase pos f mv prevEp).1.board =
      updB 0 [sIdx mv.toSq 0, digitCh (digitNat (sIdx mv.toSq 1) - 1)] pos.board ∧
    (epPhase pos f mv prevEp).2 = true := by
  unfold epPhase
  rw [if_pos h1]
  dsimp only
  rw [if_pos h3]
  refine ⟨?_, rfl⟩
  rw [setPiece_board]
  by_cases h2 : sIdx mv.fromSq 1 = '2' ∧ sIdx mv.toSq 1 = '4'
  · rw [if_pos h2]
  · rw [if_neg h2]

/-- A black en-passant capture removes the passed pawn one rank above
the target. -/
theorem epPhase_board_black (pos : Position) (f : Nat) (mv : Move)
    (prevEp : Option Str) (h1 : f = 7)
    (h3 : prevEp = some mv.toSq ∧ sIdx mv.fromSq 0 ≠ sIdx mv.toSq 0) :
    (epPhase pos f mv prevEp).1.board =
      updB 0 [sIdx mv.toSq 0, digitCh (digitNat (sIdx mv.toSq 1) + 1)] pos.board ∧
    (epPhase pos f mv prevEp).2 = true := by
  have hn1 : f ≠ 1 := by rw [h1]; decide
  unfold epPhase
  rw [if_neg hn1, if_pos h1]
  dsimp only
  rw [if_pos h3]
  refine ⟨?_, rfl⟩
  rw [setPiece_board]
  by_cases h2 : sIdx mv.fromSq 1 = '7' ∧ sIdx mv.toSq 1 = '5'
  · rw [if_pos h2]
  · rw [if_neg h2]

/-- The board-level content of `undo_move`'s restoration writes. -/
def undoB (last : MoveRecord) (B : IBoard) : IBoard :=
  let B1 := updB last.toPiece last.move.toSq (updB last.fromPiece last.move.fromSq B)
  let B2 :=
    if last.castlingMove then
      if last.move.fromSq = strL "E1" ∧ last.move.toSq = strL "G1" then
        updB 0 (strL "F1") (updB 2 (strL "H1") B1)
      else if last.move.fromSq = strL "E1" ∧ last.move.toSq = strL "C1" then
        updB 0 (strL "D1") (updB 2 (strL "A1") B1)
      else if last.move.fromSq = strL "E8" ∧ last.move.toSq = strL "G8" then
        updB 0 (strL "F8") (updB 8 (strL "H8") B1)
      else if last.move.fromSq = strL "E8" ∧ last.move.toSq = strL "C8" then
        updB 0 (strL "D8") (updB 8 (strL "A8") B1)
      else B1
    else B1
  if last.epCapture then
    if last.fromPiece = 1 then
      updB 7 [sIdx last.move.toSq 0, digitCh (digitNat (sIdx last.move.toSq 1) - 1)] B2
    else if last.fromPiece = 7 then
      updB 1 [sIdx last.move.toSq 0, digitCh (digitNat (sIdx last.move.toSq 1) + 1)] B2
    else B2
  else B2

theorem undoBoardPhase_board (pos : Position) (last : MoveRecord) :
    (undoBoardPhase pos last).board = undoB last pos.board := by
  unfold undoBoardPhase undoB
  dsimp only
  by_cases hc : last.castlingMove = true <;>
    by_cases he : last.epCapture = true <;>
    simp only [hc, he, if_true, if_false, Bool.false_eq_true] <;>
    (try split_ifs) <;>
    simp only [setPiece_board]

theorem undoBoardPhase_scalars (pos : Position) (last : MoveRecord) :
    (undoBoardPhase pos last).whiteToPlay = pos.whiteToPlay ∧
    (undoBoardPhase pos last).positionHistory = pos.positionHistory := by
  unfold undoBoardPhase
  dsimp only
  by_cases hc : last.castlingMove = true <;>
    by_cases he : last.epCapture = true <;>
    simp only [hc, he, if_true, if_false, Bool.false_eq_true] <;>
    (try split_ifs) <;>
    simp [setPiece_whiteToPlay, setPiece_positionHistory]

/-- Board effect of a non-castling, non-en-passant move: clear the
source, write something (the mover or the promotion piece) on the
destination. -/
theorem boardPhase_board_normal (pos : Position) (mv : Move)
    (h1 : (castlePhase pos (getPiece pos mv.fromSq) mv).2 = false)
    (h2 : ¬epCaptureCond pos mv) :
    (∃ x, (boardPhase pos mv).1.board =
      updB 0 mv.fromSq (updB x mv.toSq pos.board)) ∧
    (boardPhase pos mv).2.1 = false ∧
    (boardPhase pos mv).2.2.1 = false := by
  have hef : (boardPhase pos mv).2.2.1 = false := by
    cases hb : (boardPhase pos mv).2.2.1
    · rfl
    · exact absurd ((boardPhase_epFlag pos mv).mp hb) h2
  have hefe : (epPhase (rookRightsPhase (castlePhase pos (getPiece pos mv.fromSq) mv).1
      (getPiece pos mv.fromSq) (getPiece pos mv.toSq) mv)
      (getPiece pos mv.fromSq) mv pos.enPassant).2 = false := hef
  have heb := epPhase_board_false _ _ _ _ hefe
  have hrb := (rookRightsPhase_scalars (castlePhase pos (getPiece pos mv.fromSq) mv).1
    (getPiece pos mv.fromSq) (getPiece pos mv.toSq) mv).1
  have hcb := castlePhase_board_false pos (getPiece pos mv.fromSq) mv h1
  have hb0 : (boardPhase pos mv).1 =
      (if (castlePhase pos (getPiece pos mv.fromSq) mv).2 = true then
        (epPhase (rookRightsPhase (castlePhase pos (getPiece pos mv.fromSq) mv).1
          (getPiece pos mv.fromSq) (getPiece pos mv.toSq) mv)
          (getPiece pos mv.fromSq) mv pos.enPassant).1
      else
        match promoPhase (getPiece pos mv.fromSq) mv with
        | some pp => setPiece 0 mv.fromSq (setPiece pp mv.toSq
            (epPhase (rookRightsPhase (castlePhase pos (getPiece pos mv.fromSq) mv).1
              (getPiece pos mv.fromSq) (getPiece pos mv.toSq) mv)
              (getPiece pos mv.fromSq) mv pos.enPassant).1)
        | none => setPiece 0 mv.fromSq (setPiece (getPiece pos mv.fromSq) mv.toSq
            (epPhase (rookRightsPhase (castlePhase pos (getPiece pos mv.fromSq) mv).1
              (getPiece pos mv.fromSq) (getPiece pos mv.toSq) mv)
              (getPiece pos mv.fromSq) mv pos.enPassant).1)) := rfl
  cases hpp : promoPhase (getPiece pos mv.fromSq) mv with
  | none =>
    refine ⟨⟨getPiece pos mv.fromSq, ?_⟩, h1, hef⟩
    rw [hb0, h1]
    simp only [Bool.false_eq_true, if_false, hpp]
    rw [setPiece_board, setPiece_board, heb, hrb, hcb]
  | some pp =>
    refine ⟨⟨pp, ?_⟩, h1, hef⟩
    rw [hb0, h1]
    simp only [Bool.false_eq_true, if_false, hpp]
    rw [setPiece_board, setPiece_board, heb, hrb, hcb]

/-- The state component of `boardPhase`, unfolded once. -/
theorem boardPhase_fst (pos : Position) (mv : Move) :
    (boardPhase pos mv).1 =
      (if (castlePhase pos (getPiece pos mv.fromSq) mv).2 = true then
        (epPhase (rookRightsPhase (castlePhase pos (getPiece pos mv.fromSq) mv).1
          (getPiece pos mv.fromSq) (getPiece pos mv.toSq) mv)
          (getPiece pos mv.fromSq) mv pos.enPassant).1
      else
        match promoPhase (getPiece pos mv.fromSq) mv with
        | some pp => setPiece 0 mv.fromSq (setPiece pp mv.toSq
            (epPhase (rookRightsPhase (castlePhase pos (getPiece pos mv.fromSq) mv).1
              (getPiece pos mv.fromSq) (getPiece pos mv.toSq) mv)
              (getPiece pos mv.fromSq) mv pos.enPassant).1)
        | none => setPiece 0 mv.fromSq (setPiece (getPiece pos mv.fromSq) mv.toSq
            (epPhase (rookRightsPhase (castlePhase pos (getPiece pos mv.fromSq) mv).1
              (getPiece pos mv.fromSq) (getPiece pos mv.toSq) mv)
              (getPiece pos mv.fromSq) mv pos.enPassant).1)) := rfl

/-- The two flags of `boardPhase` are those of its two sub-blocks. -/
theorem boardPhase_flags (pos : Position) (mv : Move) :
    (boardPhase pos mv).2.1 = (castlePhase pos (getPiece pos mv.fromSq) mv).2 ∧
    (boardPhase pos mv).2.2.1 =
      (epPhase (rookRightsPhase (castlePhase pos (getPiece pos mv.fromSq) mv).1
        (getPiece pos mv.fromSq) (getPiece pos mv.toSq) mv)
        (getPiece pos mv.fromSq) mv pos.enPassant).2 := ⟨rfl, rfl⟩

/-- A castling flag implies the mover is a king on its home square. -/
theorem castlePhase_flag_piece (pos : Position) (f : Nat) (mv : Move)
    (h : (castlePhase pos f mv).2 = true) : f = 6 ∨ f = 12 := by
  rcases (castlePhase_flag pos f mv).mp h with ⟨h6, _⟩ | ⟨h12, _⟩
  · exact Or.inl h6
  · exact Or.inr h12

/-- Board effect of white kingside castling through `boardPhase`. -/
theorem boardPhase_board_WK (pos : Position) (mv : Move)
    (h1 : getPiece pos mv.fromSq = 6) (h2 : mv.fromSq = strL "E1")
    (h3 : mv.toSq = strL "G1") (h4 : pos.castlingRights &&& 1 ≠ 0) :
    (boardPhase pos mv).1.board =
      updB 0 (strL "H1") (updB 2 (strL "F1")
        (updB 0 (strL "E1") (updB 6 (strL "G1") pos.board))) ∧
    (boardPhase pos mv).2.1 = true ∧
    (boardPhase pos mv).2.2.1 = false := by
  have hcf : (castlePhase pos (getPiece pos mv.fromSq) mv).2 = true :=
    (castlePhase_flag pos (getPiece pos mv.fromSq) mv).mpr
      (Or.inl ⟨h1, h2, Or.inl ⟨h3, h4⟩⟩)
  have hcb := castlePhase_board_WK pos (getPiece pos mv.fromSq) mv h1 h2 h3 h4
  have hepnp := epPhase_nonpawn (rookRightsPhase
    (castlePhase pos (getPiece pos mv.fromSq) mv).1
    (getPiece pos mv.fromSq) (getPiece pos mv.toSq) mv)
    (getPiece pos mv.fromSq) mv pos.enPassant
    (by rw [h1]; decide) (by rw [h1]; decide)
  have hrb := (rookRightsPhase_scalars (castlePhase pos (getPiece pos mv.fromSq) mv).1
    (getPiece pos mv.fromSq) (getPiece pos mv.toSq) mv).1
  refine ⟨?_, (boardPhase_flags pos mv).1.trans hcf,
    ((boardPhase_flags pos mv).2.trans hepnp.2)⟩
  rw [boardPhase_fst, hcf]
  simp only [if_true]
  rw [hepnp.1, hrb, hcb]

/-- Board effect of white queenside castling through `boardPhase`. -/
theorem boardPhase_board_WQ (pos : Position) (mv : Move)
    (h1 : getPiece pos mv.fromSq = 6) (h2 : mv.fromSq = strL "E1")
    (h3 : mv.toSq = strL "C1") (h4 : pos.castlingRights &&& 2 ≠ 0) :
    (boardPhase pos mv).1.board =
      updB 0 (strL "A1") (updB 2 (strL "D1")
        (updB 0 (strL "E1") (updB 6 (strL "C1") pos.board))) ∧
    (boardPhase pos mv).2.1 = true ∧
    (boardPhase pos mv).2.2.1 = false := by
  have hcf : (castlePhase pos (getPiece pos mv.fromSq) mv).2 = true :=
    (castlePhase_flag pos (getPiece pos mv.fromSq) mv).mpr
      (Or.inl ⟨h1, h2, Or.inr ⟨h3, h4⟩⟩)
  have hcb := castlePhase_board_WQ pos (getPiece pos mv.fromSq) mv h1 h2 h3 h4
  have hepnp := epPhase_nonpawn (rookRightsPhase
    (castlePhase pos (getPiece pos mv.fromSq) mv).1
    (getPiece pos mv.fromSq) (getPiece pos mv.toSq) mv)
    (getPiece pos mv.fromSq) mv pos.enPassant
    (by rw [h1]; decide) (by rw [h1]; decide)
  have hrb := (rookRightsPhase_scalars (castlePhase pos (getPiece pos mv.fromSq) mv).1
    (getPiece pos mv.fromSq) (getPiece pos mv.toSq) mv).1
  refine ⟨?_, (boardPhase_flags pos mv).1.trans hcf,
    ((boardPhase_flags pos mv).2.trans hepnp.2)⟩
  rw [boardPhase_fst, hcf]
  simp only [if_true]
  rw [hepnp.1, hrb, hcb]

/-- Board effect of black kingside castling through `boardPhase`. -/
theorem boardPhase_board_BK (pos : Position) (mv : Move)
    (h1 : getPiece pos mv.fromSq = 12) (h2 : mv.fromSq = strL "E8")
    (h3 : mv.toSq = strL "G8") (h4 : pos.castlingRights &&& 4 ≠ 0) :
    (boardPhase pos mv).1.board =
      updB 0 (strL "H8") (updB 8 (strL "F8")
        (updB 0 (strL "E8") (updB 12 (strL "G8") pos.board))) ∧
    (boardPhase pos mv).2.1 = true ∧
    (boardPhase pos mv).2.2.1 = false := by
  have hcf : (castlePhase pos (getPiece pos mv.fromSq) mv).2 = true :=
    (castlePhase_flag pos (getPiece pos mv.fromSq) mv).mpr
      (Or.inr ⟨h1, h2, Or.inl ⟨h3, h4⟩⟩)
  have hcb := castlePhase_board_BK pos (getPiece pos mv.fromSq) mv h1 h2 h3 h4
  have hepnp := epPhase_nonpawn (rookRightsPhase
    (castlePhase pos (getPiece pos mv.fromSq) mv).1
    (getPiece pos mv.fromSq) (getPiece pos mv.toSq) mv)
    (getPiece pos mv.fromSq) mv pos.enPassant
    (by rw [h1]; decide) (by rw [h1]; decide)
  have hrb := (rookRightsPhase_scalars (castlePhase pos (getPiece pos mv.fromSq) mv).1
    (getPiece pos mv.fromSq) (getPiece pos mv.toSq) mv).1
  refine ⟨?_, (boardPhase_flags pos mv).1.trans hcf,
    ((boardPhase_flags pos mv).2.trans hepnp.2)⟩
  rw [boardPhase_fst, hcf]
  simp only [if_true]
  rw [hepnp.1, hrb, hcb]

/-- Board effect of black queenside castling through `boardPhase`. -/
theorem boardPhase_board_BQ (pos : Position) (mv : Move)
    (h1 : getPiece pos mv.fromSq = 12) (h2 : mv.fromSq = strL "E8")
    (h3 : mv.toSq = strL "C8") (h4 : pos.castlingRights &&& 8 ≠ 0) :
    (boardPhase pos mv).1.board =
      updB 0 (strL "A8") (updB 8 (strL "D8")
        (updB 0 (strL "E8") (updB 12 (strL "C8") pos.board))) ∧
    (boardPhase pos mv).2.1 = true ∧
    (boardPhase pos mv).2.2.1 = false := by
  have hcf : (castlePhase pos (getPiece pos mv.fromSq) mv).2 = true :=
    (castlePhase_flag pos (getPiece pos mv.fromSq) mv).mpr
      (Or.inr ⟨h1, h2, Or.inr ⟨h3, h4⟩⟩)
  have hcb := castlePhase_board_BQ pos (getPiece pos mv.fromSq) mv h1 h2 h3 h4
  have hepnp := epPhase_nonpawn (rookRightsPhase
    (castlePhase pos (getPiece pos mv.fromSq) mv).1
    (getPiece pos mv.fromSq) (getPiece pos mv.toSq) mv)
    (getPiece pos mv.fromSq) mv pos.enPassant
    (by rw [h1]; decide) (by rw [h1]; decide)
  have hrb := (rookRightsPhase_scalars (castlePhase pos (getPiece pos mv.fromSq) mv).1
    (getPiece pos mv.fromSq) (getPiece pos mv.toSq) mv).1
  refine ⟨?_, (boardPhase_flags pos mv).1.trans hcf,
    ((boardPhase_flags pos mv).2.trans hepnp.2)⟩
  rw [boardPhase_fst, hcf]
  simp only [if_true]
  rw [hepnp.1, hrb, hcb]

/-- Board effect of a white en-passant capture through `boardPhase`. -/
theorem boardPhase_board_epW (pos : Position) (mv : Move)
    (h1 : getPiece pos mv.fromSq = 1)
    (h3 : pos.enPassant = some mv.toSq ∧ sIdx mv.fromSq 0 ≠ sIdx mv.toSq 0)
    (h8 : sIdx mv.toSq 1 ≠ '8') :
    (boardPhase pos mv).1.board =
      updB 0 mv.fromSq (updB 1 mv.toSq
        (updB 0 [sIdx mv.toSq 0, digitCh (digitNat (sIdx mv.toSq 1) - 1)]
          pos.board)) ∧
    (boardPhase pos mv).2.1 = false ∧
    (boardPhase pos mv).2.2.1 = true := by
  have hcf : (castlePhase pos (getPiece pos mv.fromSq) mv).2 = false := by
    cases hb : (castlePhase pos (getPiece pos mv.fromSq) mv).2
    · rfl
    · rcases castlePhase_flag_piece _ _ _ hb with h6 | h12
      · exact absurd (h1.symm.trans h6) (by decide)
      · exact absurd (h1.symm.trans h12) (by decide)
  have hcb := castlePhase_board_false pos (getPiece pos mv.fromSq) mv hcf
  have hrb := (rookRightsPhase_scalars (castlePhase pos (getPiece pos mv.fromSq) mv).1
    (getPiece pos mv.fromSq) (getPiece pos mv.toSq) mv).1
  have hepb := epPhase_board_white (rookRightsPhase
    (castlePhase pos (getPiece pos mv.fromSq) mv).1
    (getPiece pos mv.fromSq) (getPiece pos mv.toSq) mv)
    (getPiece pos mv.fromSq) mv pos.enPassant h1 h3
  have hpp : promoPhase (getPiece pos mv.fromSq) mv = none := by
    unfold promoPhase
    rw [if_neg (fun hc => h8 hc.2),
      if_neg (fun hc => absurd (h1.symm.trans hc.1) (by decide))]
  refine ⟨?_, (boardPhase_flags pos mv).1.trans hcf,
    ((boardPhase_flags pos mv).2.trans hepb.2)⟩
  rw [boardPhase_fst, hcf]
  simp only [Bool.false_eq_true, if_false, hpp]
  rw [setPiece_board, setPiece_board, hepb.1, hrb, hcb, h1]

/-- Board effect of a black en-passant capture through `boardPhase`. -/
theorem boardPhase_board_epB (pos : Position) (mv : Move)
    (h1 : getPiece pos mv.fromSq = 7)
    (h3 : pos.enPassant = some mv.toSq ∧ sIdx mv.fromSq 0 ≠ sIdx mv.toSq 0)
    (h8 : sIdx mv.toSq 1 ≠ '1') :
    (boardPhase pos mv).1.board =
      updB 0 mv.fromSq (updB 7 mv.toSq
        (updB 0 [sIdx mv.toSq 0, digitCh (digitNat (sIdx mv.toSq 1) + 1)]
          pos.board)) ∧
    (boardPhase pos mv).2.1 = false ∧
    (boardPhase pos mv).2.2.1 = true := by
  have hcf : (castlePhase pos (getPiece pos mv.fromSq) mv).2 = false := by
    cases hb : (castlePhase pos (getPiece pos mv.fromSq) mv).2
    · rfl
    · rcases castlePhase_flag_piece _ _ _ hb with h6 | h12
      · exact absurd (h1.symm.trans h6) (by decide)
      · exact absurd (h1.symm.trans h12) (by decide)
  have hcb := castlePhase_board_false pos (getPiece pos mv.fromSq) mv hcf
  have hrb := (rookRightsPhase_scalars (castlePhase pos (getPiece pos mv.fromSq) mv).1
    (getPiece pos mv.fromSq) (getPiece pos mv.toSq) mv).1
  have hepb := epPhase_board_black (rookRightsPhase
    (castlePhase pos (getPiece pos mv.fromSq) mv).1
    (getPiece pos mv.fromSq) (getPiece pos mv.toSq) mv)
    (getPiece pos mv.fromSq) mv pos.enPassant h1 h3
  have hpp : promoPhase (getPiece pos mv.fromSq) mv = none := by
    unfold promoPhase
    rw [if_neg (fun hc => absurd (h1.symm.trans hc.1) (by decide)),
      if_neg (fun hc => h8 hc.2)]
  refine ⟨?_, (boardPhase_flags pos mv).1.trans hcf,
    ((boardPhase_flags pos mv).2.trans hepb.2)⟩
  rw [boardPhase_fst, hcf]
  simp only [Bool.false_eq_true, if_false, hpp]
  rw [setPiece_board, setPiece_board, hepb.1, hrb, hcb, h1]

/-- The record `make_move` appends to the move history. -/
def rcdOf (pos : Position) (mv : Move) : MoveRecord :=
  ⟨⟨mv.fromSq, mv.toSq, none⟩, getPiece pos mv.fromSq, getPiece pos mv.toSq,
   (boardPhase pos mv).2.1, (boardPhase pos mv).2.2.1, pos.enPassant,
   pos.castlingRights, pos.halfmove, pos.fullmove, (boardPhase pos mv).2.2.2⟩

/-- Field characterization of the position `applyMove` produces. -/
theorem applyMove_fields (pos : Position) (mv : Move) :
    (applyMove pos mv).2.board = (boardPhase pos mv).1.board ∧
    (applyMove pos mv).2.whiteToPlay = !pos.whiteToPlay ∧
    (applyMove pos mv).2.moveHistory = pos.moveHistory ++ [rcdOf pos mv] := by
  refine ⟨rfl, rfl, ?_⟩
  show (boardPhase pos mv).1.moveHistory ++ [rcdOf pos mv] =
    pos.moveHistory ++ [rcdOf pos mv]
  rw [(boardPhase_scalars pos mv).2.2.2.2]

/-- Field characterization of `undo_move` when the history ends in a
record: each serialized scalar comes straight from the record, and the
board is the restoration chain over the post-move board. -/
theorem undoMove_fields (pos : Position) (rcd : MoveRecord)
    (h : pos.moveHistory.getLast? = some rcd) :
    (undoMove pos).board = undoB rcd pos.board ∧
    (undoMove pos).whiteToPlay = !pos.whiteToPlay ∧
    (undoMove pos).castlingRights = rcd.castlingRights ∧
    (undoMove pos).enPassant = rcd.prevEp ∧
    (undoMove pos).halfmove = rcd.halfmove ∧
    (undoMove pos).fullmove = rcd.fullmove := by
  unfold undoMove
  rw [h]
  dsimp only
  refine ⟨?_, ?_, rfl, rfl, rfl, rfl⟩
  · rw [undoBoardPhase_board]
  · rw [(undoBoardPhase_scalars _ _).1]

/-- `get_fen` depends only on the board, side to move, castling
rights, en-passant target and the two counters. -/
theorem getFen_congr (p q : Position) (hb : p.board = q.board)
    (hw : p.whiteToPlay = q.whiteToPlay)
    (hcr : p.castlingRights = q.castlingRights)
    (hepq : p.enPassant = q.enPassant)
    (hh : p.halfmove = q.halfmove)
    (hf : p.fullmove = q.fullmove) : getFen p = getFen q := by
  unfold getFen placementStr rowOf
  simp only [hb, hw, hcr, hepq, hh, hf]

/-- The reachable-state well-formedness of the en-passant field: a set
target sits behind the double-pushed pawn of the side that just moved,
on a board column matching its file letter. -/
def epInv (pos : Position) : Prop :=
  match pos.enPassant with
  | none => True
  | some s =>
      0 ≤ (squareToCoords s).2 ∧ (squareToCoords s).2 < 8 ∧
      s = [sIdx s 0, if pos.whiteToPlay then '6' else '3'] ∧
      pos.board (if pos.whiteToPlay then 3 else 4) (squareToCoords s).2 =
        (if pos.whiteToPlay then 7 else 1)

instance (pos : Position) : Decidable (epInv pos) := by
  unfold epInv
  cases pos.enPassant <;> infer_instance

/-- A white king move from E1 is generated by the king generator. -/
theorem genForPiece_king_w (pos : Position) (r c : Int) (m : Move)
    (hm : m ∈ genForPiece pos r c 6) :
    m ∈ kingGen pos r c (coordsToSquare r c) true := by
  unfold genForPiece at hm
  rw [if_neg (by decide), if_neg (by decide), if_neg (by decide),
    if_neg (by decide), if_neg (by decide), if_pos (by decide)] at hm
  exact hm

/-- A black king move from E8 is generated by the king generator. -/
theorem genForPiece_king_b (pos : Position) (r c : Int) (m : Move)
    (hm : m ∈ genForPiece pos r c 12) :
    m ∈ kingGen pos r c (coordsToSquare r c) false := by
  unfold genForPiece at hm
  rw [if_neg (by decide), if_neg (by decide), if_neg (by decide),
    if_neg (by decide), if_neg (by decide), if_pos (by decide)] at hm
  exact hm

/-- Inversion of white kingside castling generation: the move E1-G1
can only come from the castling appendix, whose guard requires F1 and
G1 empty. -/
theorem kingGen_guard_WK (pos : Position) (m : Move)
    (hmem : m ∈ kingGen pos 7 4 (coordsToSquare 7 4) true)
    (htos : m.toSq = strL "G1") :
    pos.board 7 5 = 0 ∧ pos.board 7 6 = 0 := by
  unfold kingGen at hmem
  rcases List.mem_append.mp hmem with h | h
  · obtain ⟨o, ho, hmo⟩ := stepGen_to _ _ _ _ _ _ _ h
    have hts : m.toSq = coordsToSquare (7 + o.1) (4 + o.2) := congrArg Move.toSq hmo
    have : ∀ o ∈ kingOffs, coordsToSquare (7 + o.1) (4 + o.2) ≠ strL "G1" := by
      decide
    exact absurd (hts.symm.trans htos) (this o ho)
  · rw [if_pos (by decide)] at h
    rcases List.mem_append.mp h with h | h
    · split at h
      · rename_i hcond
        exact ⟨hcond.2.2.1, hcond.2.2.2.1⟩
      · exact absurd h (List.not_mem_nil _)
    · split at h
      · rw [List.mem_singleton] at h
        have hc1 : m.toSq = strL "C1" := by rw [h]
        exact absurd (hc1.symm.trans htos) (by decide)
      · exact absurd h (List.not_mem_nil _)

/-- Inversion of white queenside castling generation: the move E1-C1
can only come from the castling appendix, whose guard requires D1, C1
and B1 empty. -/
theorem kingGen_guard_WQ (pos : Position) (m : Move)
    (hmem : m ∈ kingGen pos 7 4 (coordsToSquare 7 4) true)
    (htos : m.toSq = strL "C1") :
    pos.board 7 3 = 0 ∧ pos.board 7 2 = 0 ∧ pos.board 7 1 = 0 := by
  unfold kingGen at hmem
  rcases List.mem_append.mp hmem with h | h
  · obtain ⟨o, ho, hmo⟩ := stepGen_to _ _ _ _ _ _ _ h
    have hts : m.toSq = coordsToSquare (7 + o.1) (4 + o.2) := congrArg Move.toSq hmo
    have : ∀ o ∈ kingOffs, coordsToSquare (7 + o.1) (4 + o.2) ≠ strL "C1" := by
      decide
    exact absurd (hts.symm.trans htos) (this o ho)
  · rw [if_pos (by decide)] at h
    rcases List.mem_append.mp h with h | h
    · split at h
      · rw [List.mem_singleton] at h
        have hg1 : m.toSq = strL "G1" := by rw [h]
        exact absurd (hg1.symm.trans htos) (by decide)
      · exact absurd h (List.not_mem_nil _)
    · split at h
      · rename_i hcond
        exact ⟨hcond.2.2.1, hcond.2.2.2.1, hcond.2.2.2.2.1⟩
      · exact absurd h (List.not_mem_nil _)

/-- Inversion of black kingside castling generation: the move E8-G8
can only come from the castling appendix, whose guard requires F8 and
G8 empty. -/
theorem kingGen_guard_BK (pos : Position) (m : Move)
    (hmem : m ∈ kingGen pos 0 4 (coordsToSquare 0 4) false)
    (htos : m.toSq = strL "G8") :
    pos.board 0 5 = 0 ∧ pos.board 0 6 = 0 := by
  unfold kingGen at hmem
  rcases List.mem_append.mp hmem with h | h
  · obtain ⟨o, ho, hmo⟩ := stepGen_to _ _ _ _ _ _ _ h
    have hts : m.toSq = coordsToSquare (0 + o.1) (4 + o.2) := congrArg Move.toSq hmo
    have : ∀ o ∈ kingOffs, coordsToSquare (0 + o.1) (4 + o.2) ≠ strL "G8" := by
      decide
    exact absurd (hts.symm.trans htos) (this o ho)
  · rw [if_neg (by decide), if_pos (by decide)] at h
    rcases List.mem_append.mp h with h | h
    · split at h
      · rename_i hcond
        exact ⟨hcond.2.2.1, hcond.2.2.2.1⟩
      · exact absurd h (List.not_mem_nil _)
    · split at h
      · rw [List.mem_singleton] at h
        have hc8 : m.toSq = strL "C8" := by rw [h]
        exact absurd (hc8.symm.trans htos) (by decide)
      · exact absurd h (List.not_mem_nil _)

/-- Inversion of black queenside castling generation: the move E8-C8
can only come from the castling appendix, whose guard requires D8, C8
and B8 empty. -/
theorem kingGen_guard_BQ (pos : Position) (m : Move)
    (hmem : m ∈ kingGen pos 0 4 (coordsToSquare 0 4) false)
    (htos : m.toSq = strL "C8") :
    pos.board 0 3 = 0 ∧ pos.board 0 2 = 0 ∧ pos.board 0 1 = 0 := by
  unfold kingGen at hmem
  rcases List.mem_append.mp hmem with h | h
  · obtain ⟨o, ho, hmo⟩ := stepGen_to _ _ _ _ _ _ _ h
    have hts : m.toSq = coordsToSquare (0 + o.1) (4 + o.2) := congrArg Move.toSq hmo
    have : ∀ o ∈ kingOffs, coordsToSquare (0 + o.1) (4 + o.2) ≠ strL "C8" := by
      decide
    exact absurd (hts.symm.trans htos) (this o ho)
  · rw [if_neg (by decide), if_pos (by decide)] at h
    rcases List.mem_append.mp h with h | h
    · split at h
      · rw [List.mem_singleton] at h
        have hg8 : m.toSq = strL "G8" := by rw [h]
        exact absurd (hg8.symm.trans htos) (by decide)
      · exact absurd h (List.not_mem_nil _)
    · split at h
      · rename_i hcond
        exact ⟨hcond.2.2.1, hcond.2.2.2.1, hcond.2.2.2.2.1⟩
      · exact absurd h (List.not_mem_nil _)

/-- `undo_move` board writes for a plain move: rewrite the recorded
destination and source contents. -/
theorem undoB_normal (last : MoveRecord) (B : IBoard)
    (hc : last.castlingMove = false) (he : last.epCapture = false) :
    undoB last B =
      updB last.toPiece last.move.toSq (updB last.fromPiece last.move.fromSq B) := by
  unfold undoB
  dsimp only
  simp only [hc, he, Bool.false_eq_true, if_false]

/-- `undo_move` board writes after white kingside castling. -/
theorem undoB_WK (last : MoveRecord) (B : IBoard)
    (hc : last.castlingMove = true) (he : last.epCapture = false)
    (hf : last.move.fromSq = strL "E1") (ht : last.move.toSq = strL "G1") :
    undoB last B =
      updB 0 (strL "F1") (updB 2 (strL "H1")
        (updB last.toPiece (strL "G1") (updB last.fromPiece (strL "E1") B))) := by
  unfold undoB
  dsimp only
  simp only [hc, he, Bool.false_eq_true, if_false, if_true, hf, ht]
  rw [if_pos ⟨trivial, trivial⟩]

/-- `undo_move` board writes after white queenside castling. -/
theorem undoB_WQ (last : MoveRecord) (B : IBoard)
    (hc : last.castlingMove = true) (he : last.epCapture = false)
    (hf : last.move.fromSq = strL "E1") (ht : last.move.toSq = strL "C1") :
    undoB last B =
      updB 0 (strL "D1") (updB 2 (strL "A1")
        (updB last.toPiece (strL "C1") (updB last.fromPiece (strL "E1") B))) := by
  unfold undoB
  dsimp only
  simp only [hc, he, Bool.false_eq_true, if_false, if_true, hf, ht]
  rw [if_neg (fun hcc => absurd hcc.2 (by decide)), if_pos ⟨trivial, trivial⟩]

/-- `undo_move` board writes after black kingside castling. -/
theorem undoB_BK (last : MoveRecord) (B : IBoard)
    (hc : last.castlingMove = true) (he : last.epCapture = false)
    (hf : last.move.fromSq = strL "E8") (ht : last.move.toSq = strL "G8") :
    undoB last B =
      updB 0 (strL "F8") (updB 8 (strL "H8")
        (updB last.toPiece (strL "G8") (updB last.fromPiece (strL "E8") B))) := by
  unfold undoB
  dsimp only
  simp only [hc, he, Bool.false_eq_true, if_false, if_true, hf, ht]
  rw [if_neg (fun hcc => absurd hcc.1 (by decide)),
    if_neg (fun hcc => absurd hcc.1 (by decide)), if_pos ⟨trivial, trivial⟩]

/-- `undo_move` board writes after black queenside castling. -/
theorem undoB_BQ (last : MoveRecord) (B : IBoard)
    (hc : last.castlingMove = true) (he : last.epCapture = false)
    (hf : last.move.fromSq = strL "E8") (ht : last.move.toSq = strL "C8") :
    undoB last B =
      updB 0 (strL "D8") (updB 8 (strL "A8")
        (updB last.toPiece (strL "C8") (updB last.fromPiece (strL "E8") B))) := by
  unfold undoB
  dsimp only
  simp only [hc, he, Bool.false_eq_true, if_false, if_true, hf, ht]
  rw [if_neg (fun hcc => absurd hcc.1 (by decide)),
    if_neg (fun hcc => absurd hcc.1 (by decide)),
    if_neg (fun hcc => absurd hcc.2 (by decide)), if_pos ⟨trivial, trivial⟩]

/-- `undo_move` board writes after a white en-passant capture: also
rewrite the captured black pawn behind the target. -/
theorem undoB_epW (last : MoveRecord) (B : IBoard)
    (hc : last.castlingMove = false) (he : last.epCapture = true)
    (hfp : last.fromPiece = 1) :
    undoB last B =
      updB 7 [sIdx last.move.toSq 0, digitCh (digitNat (sIdx last.move.toSq 1) - 1)]
        (updB last.toPiece last.move.toSq (updB last.fromPiece last.move.fromSq B)) := by
  unfold undoB
  dsimp only
  simp only [hc, he, Bool.false_eq_true, if_false, if_true, hfp]

/-- `undo_move` board writes after a black en-passant capture: also
rewrite the captured white pawn behind the target. -/
theorem undoB_epB (last : MoveRecord) (B : IBoard)
    (hc : last.castlingMove = false) (he : last.epCapture = true)
    (hfp : last.fromPiece = 7) :
    undoB last B =
      updB 1 [sIdx last.move.toSq 0, digitCh (digitNat (sIdx last.move.toSq 1) + 1)]
        (updB last.toPiece last.move.toSq (updB last.fromPiece last.move.fromSq B)) := by
  unfold undoB
  dsimp only
  simp only [hc, he, Bool.false_eq_true, if_false, if_true, hfp]
  rw [if_neg (by decide)]

/-- Core of the apply/undo round trip: with a legal move, rooks on the
corners named by the castling rights, and a well-formed en-passant
field, the undo writes restore every square of the post-move board to
its pre-move content. -/
theorem applyUndo_board (pos : Position) (mv : Move)
    (hm : mv ∈ getMoves pos)
    (hcr1 : pos.castlingRights &&& 1 ≠ 0 → pos.board 7 7 = 2)
    (hcr2 : pos.castlingRights &&& 2 ≠ 0 → pos.board 7 0 = 2)
    (hcr4 : pos.castlingRights &&& 4 ≠ 0 → pos.board 0 7 = 8)
    (hcr8 : pos.castlingRights &&& 8 ≠ 0 → pos.board 0 0 = 8)
    (hepi : epInv pos) :
    undoB (rcdOf pos mv) (boardPhase pos mv).1.board = pos.board := by
  obtain ⟨rc, hrcl, ⟨hp0, hcol⟩, hgen⟩ := getMoves_inv pos mv hm
  have hfrom : mv.fromSq = coordsToSquare rc.1 rc.2 :=
    genForPiece_fromSq pos rc.1 rc.2 _ mv hgen
  obtain ⟨hne, hinv, hb1, hb2, hb3, hb4⟩ := coordProps rc hrcl
  have hfget : getPiece pos mv.fromSq = pos.board rc.1 rc.2 := by
    rw [hfrom]
    exact getPiece_coords pos rc hrcl
  by_cases hcf : (castlePhase pos (getPiece pos mv.fromSq) mv).2 = true
  · rcases (castlePhase_flag pos (getPiece pos mv.fromSq) mv).mp hcf with
      ⟨h6, hE1, hside⟩ | ⟨h12, hE8, hside⟩
    · -- white castling
      have hrc74 : rc = (7, 4) := by
        have hE : coordsToSquare rc.1 rc.2 = strL "E1" := hfrom.symm.trans hE1
        have hduniq : ∀ p ∈ coordList,
            coordsToSquare p.1 p.2 = strL "E1" → p = (7, 4) := by decide
        exact hduniq rc hrcl hE
      have hb74 : pos.board 7 4 = 6 := by
        have hh := hfget.symm.trans h6
        rw [hrc74] at hh
        exact hh
      have hkmem : mv ∈ kingGen pos 7 4 (coordsToSquare 7 4) true := by
        have hgen' := hgen
        rw [hrc74] at hgen'
        rw [show pos.board (7, 4).1 (7, 4).2 = 6 from hb74] at hgen'
        exact genForPiece_king_w pos 7 4 mv hgen'
      have hfp6 : (rcdOf pos mv).fromPiece = 6 := h6
      rcases hside with ⟨hG1, hbit⟩ | ⟨hC1, hbit⟩
      · obtain ⟨hg1, hg2⟩ := kingGen_guard_WK pos mv hkmem hG1
        obtain ⟨hbb, hfl1, hfl2⟩ := boardPhase_board_WK pos mv h6 hE1 hG1 hbit
        rw [undoB_WK (rcdOf pos mv) _ hfl1 hfl2 hE1 hG1, hbb, hfp6]
        have hK : pos.board (squareToCoords (strL "E1")).1
            (squareToCoords (strL "E1")).2 = 6 := by
          rw [show squareToCoords (strL "E1") = ((7 : Int), (4 : Int)) from by decide]
          exact hb74
        have ht' : (rcdOf pos mv).toPiece = pos.board (squareToCoords (strL "G1")).1
            (squareToCoords (strL "G1")).2 := by
          show getPiece pos mv.toSq = _
          rw [hG1, getPiece_eq, if_neg (by decide), if_pos (by decide)]
        have hRT : pos.board (squareToCoords (strL "F1")).1
            (squareToCoords (strL "F1")).2 = 0 := by
          rw [show squareToCoords (strL "F1") = ((7 : Int), (5 : Int)) from by decide]
          exact hg1
        have hRF : pos.board (squareToCoords (strL "H1")).1
            (squareToCoords (strL "H1")).2 = 2 := by
          rw [show squareToCoords (strL "H1") = ((7 : Int), (7 : Int)) from by decide]
          exact hcr1 hbit
        funext r c
        exact updB_castle_restore pos.board (strL "E1") (strL "G1") (strL "H1")
          (strL "F1") 6 2 ((rcdOf pos mv).toPiece) (by decide) (by decide)
          (by decide) (by decide) (by decide) (by decide) (by decide) (by decide)
          hK ht' hRT hRF r c
      · obtain ⟨hg1, hg2, hg3⟩ := kingGen_guard_WQ pos mv hkmem hC1
        obtain ⟨hbb, hfl1, hfl2⟩ := boardPhase_board_WQ pos mv h6 hE1 hC1 hbit
        rw [undoB_WQ (rcdOf pos mv) _ hfl1 hfl2 hE1 hC1, hbb, hfp6]
        have hK : pos.board (squareToCoords (strL "E1")).1
            (squareToCoords (strL "E1")).2 = 6 := by
          rw [show squareToCoords (strL "E1") = ((7 : Int), (4 : Int)) from by decide]
          exact hb74
        have ht' : (rcdOf pos mv).toPiece = pos.board (squareToCoords (strL "C1")).1
            (squareToCoords (strL "C1")).2 := by
          show getPiece pos mv.toSq = _
          rw [hC1, getPiece_eq, if_neg (by decide), if_pos (by decide)]
        have hRT : pos.board (squareToCoords (strL "D1")).1
            (squareToCoords (strL "D1")).2 = 0 := by
          rw [show squareToCoords (strL "D1") = ((7 : Int), (3 : Int)) from by decide]
          exact hg1
        have hRF : pos.board (squareToCoords (strL "A1")).1
            (squareToCoords (strL "A1")).2 = 2 := by
          rw [show squareToCoords (strL "A1") = ((7 : Int), (0 : Int)) from by decide]
          exact hcr2 hbit
        funext r c
        exact updB_castle_restore pos.board (strL "E1") (strL "C1") (strL "A1")
          (strL "D1") 6 2 ((rcdOf pos mv).toPiece) (by decide) (by decide)
          (by decide) (by decide) (by decide) (by decide) (by decide) (by decide)
          hK ht' hRT hRF r c
    · -- black castling
      have hrc04 : rc = (0, 4) := by
        have hE : coordsToSquare rc.1 rc.2 = strL "E8" := hfrom.symm.trans hE8
        have hduniq : ∀ p ∈ coordList,
            coordsToSquare p.1 p.2 = strL "E8" → p = (0, 4) := by decide
        exact hduniq rc hrcl hE
      have hb04 : pos.board 0 4 = 12 := by
        have hh := hfget.symm.trans h12
        rw [hrc04] at hh
        exact hh
      have hkmem : mv ∈ kingGen pos 0 4 (coordsToSquare 0 4) false := by
        have hgen' := hgen
        rw [hrc04] at hgen'
        rw [show pos.board (0, 4).1 (0, 4).2 = 12 from hb04] at hgen'
        exact genForPiece_king_b pos 0 4 mv hgen'
      have hfp12 : (rcdOf pos mv).fromPiece = 12 := h12
      rcases hside with ⟨hG8, hbit⟩ | ⟨hC8, hbit⟩
      · obtain ⟨hg1, hg2⟩ := kingGen_guard_BK pos mv hkmem hG8
        obtain ⟨hbb, hfl1, hfl2⟩ := boardPhase_board_BK pos mv h12 hE8 hG8 hbit
        rw [undoB_BK (rcdOf pos mv) _ hfl1 hfl2 hE8 hG8, hbb, hfp12]
        have hK : pos.board (squareToCoords (strL "E8")).1
            (squareToCoords (strL "E8")).2 = 12 := by
          rw [show squareToCoords (strL "E8") = ((0 : Int), (4 : Int)) from by decide]
          exact hb04
        have ht' : (rcdOf pos mv).toPiece = pos.board (squareToCoords (strL "G8")).1
            (squareToCoords (strL "G8")).2 := by
          show getPiece pos mv.toSq = _
          rw [hG8, getPiece_eq, if_neg (by decide), if_pos (by decide)]
        have hRT : pos.board (squareToCoords (strL "F8")).1
            (squareToCoords (strL "F8")).2 = 0 := by
          rw [show squareToCoords (strL "F8") = ((0 : Int), (5 : Int)) from by decide]
          exact hg1
        have hRF : pos.board (squareToCoords (strL "H8")).1
            (squareToCoords (strL "H8")).2 = 8 := by
          rw [show squareToCoords (strL "H8") = ((0 : Int), (7 : Int)) from by decide]
          exact hcr4 hbit
        funext r c
        exact updB_castle_restore pos.board (strL "E8") (strL "G8") (strL "H8")
          (strL "F8") 12 8 ((rcdOf pos mv).toPiece) (by decide) (by decide)
          (by decide) (by decide) (by decide) (by decide) (by decide) (by decide)
          hK ht' hRT hRF r c
      · obtain ⟨hg1, hg2, hg3⟩ := kingGen_guard_BQ pos mv hkmem hC8
        obtain ⟨hbb, hfl1, hfl2⟩ := boardPhase_board_BQ pos mv h12 hE8 hC8 hbit
        rw [undoB_BQ (rcdOf pos mv) _ hfl1 hfl2 hE8 hC8, hbb, hfp12]
        have hK : pos.board (squareToCoords (strL "E8")).1
            (squareToCoords (strL "E8")).2 = 12 := by
          rw [show squareToCoords (strL "E8") = ((0 : Int), (4 : Int)) from by decide]
          exact hb04
        have ht' : (rcdOf pos mv).toPiece = pos.board (squareToCoords (strL "C8")).1
            (squareToCoords (strL "C8")).2 := by
          show getPiece pos mv.toSq = _
          rw [hC8, getPiece_eq, if_neg (by decide), if_pos (by decide)]
        have hRT : pos.board (squareToCoords (strL "D8")).1
            (squareToCoords (strL "D8")).2 = 0 := by
          rw [show squareToCoords (strL "D8") = ((0 : Int), (3 : Int)) from by decide]
          exact hg1
        have hRF : pos.board (squareToCoords (strL "A8")).1
            (squareToCoords (strL "A8")).2 = 8 := by
          rw [show squareToCoords (strL "A8") = ((0 : Int), (0 : Int)) from by decide]
          exact hcr8 hbit
        funext r c
        exact updB_castle_restore pos.board (strL "E8") (strL "C8") (strL "A8")
          (strL "D8") 12 8 ((rcdOf pos mv).toPiece) (by decide) (by decide)
          (by decide) (by decide) (by decide) (by decide) (by decide) (by decide)
          hK ht' hRT hRF r c
  · have hcf' : (castlePhase pos (getPiece pos mv.fromSq) mv).2 = false := by
      cases hx : (castlePhase pos (getPiece pos mv.fromSq) mv).2
      · rfl
      · exact absurd hx hcf
    by_cases hec : epCaptureCond pos mv
    · obtain ⟨hf17, hpe, hfile⟩ := hec
      have hepi' := hepi
      unfold epInv at hepi'
      rw [hpe] at hepi'
      obtain ⟨hc0, hc8, hshape, hpawn⟩ := hepi'
      have hfne : mv.fromSq ≠ [] := by
        rw [hfrom]
        exact hne
      have hfb : 0 ≤ (squareToCoords mv.fromSq).1 ∧ (squareToCoords mv.fromSq).1 < 8 ∧
          0 ≤ (squareToCoords mv.fromSq).2 ∧ (squareToCoords mv.fromSq).2 < 8 := by
        rw [hfrom, hinv]
        exact ⟨hb1, hb2, hb3, hb4⟩
      have htne : mv.toSq ≠ [] := by
        rw [hshape]
        exact List.cons_ne_nil _ _
      rcases hf17 with hf1 | hf7
      · -- white en passant
        have hwt : pos.whiteToPlay = true := by
          have hh : pos.board rc.1 rc.2 = 1 := hfget.symm.trans hf1
          rw [← hcol, hh]
          decide
        rw [hwt] at hshape hpawn
        simp only [if_true] at hshape hpawn
        have h16 : sIdx mv.toSq 1 = '6' := by
          rw [hshape]
          rfl
        have h8 : sIdx mv.toSq 1 ≠ '8' := by
          rw [h16]
          decide
        obtain ⟨hbb, hfl1, hfl2⟩ := boardPhase_board_epW pos mv hf1 ⟨hpe, hfile⟩ h8
        rw [undoB_epW (rcdOf pos mv) _ hfl1 hfl2 hf1,
          show (rcdOf pos mv).move.toSq = mv.toSq from rfl,
          show (rcdOf pos mv).move.fromSq = mv.fromSq from rfl,
          hbb, h16, show (rcdOf pos mv).fromPiece = 1 from hf1]
        have hrow : (squareToCoords mv.toSq).1 = 2 := by
          rw [hshape]
          rfl
        have htb : 0 ≤ (squareToCoords mv.toSq).1 ∧ (squareToCoords mv.toSq).1 < 8 ∧
            0 ≤ (squareToCoords mv.toSq).2 ∧ (squareToCoords mv.toSq).2 < 8 := by
          rw [hrow]
          exact ⟨by decide, by decide, hc0, hc8⟩
        have hcsq : squareToCoords [sIdx mv.toSq 0, digitCh (digitNat '6' - 1)] =
            ((3 : Int), (squareToCoords mv.toSq).2) := by
          refine Prod.ext_iff.mpr ⟨?_, rfl⟩
          show (8 : Int) - (digitNat (digitCh (digitNat '6' - 1)) : Int) = 3
          decide
        have hcb : 0 ≤ (squareToCoords [sIdx mv.toSq 0, digitCh (digitNat '6' - 1)]).1 ∧
            (squareToCoords [sIdx mv.toSq 0, digitCh (digitNat '6' - 1)]).1 < 8 ∧
            0 ≤ (squareToCoords [sIdx mv.toSq 0, digitCh (digitNat '6' - 1)]).2 ∧
            (squareToCoords [sIdx mv.toSq 0, digitCh (digitNat '6' - 1)]).2 < 8 := by
          rw [hcsq]
          exact ⟨by show (0 : Int) ≤ 3; decide, by show (3 : Int) < 8; decide, hc0, hc8⟩
        have hfv : (1 : Nat) = pos.board (squareToCoords mv.fromSq).1
            (squareToCoords mv.fromSq).2 := by
          rw [hfrom, hinv]
          exact (hfget.symm.trans hf1).symm
        have htv : (rcdOf pos mv).toPiece = pos.board (squareToCoords mv.toSq).1
            (squareToCoords mv.toSq).2 := by
          show getPiece pos mv.toSq = _
          rw [getPiece_eq, if_neg htne, if_pos htb]
        have hcap : pos.board
            (squareToCoords [sIdx mv.toSq 0, digitCh (digitNat '6' - 1)]).1
            (squareToCoords [sIdx mv.toSq 0, digitCh (digitNat '6' - 1)]).2 = 7 := by
          rw [hcsq]
          exact hpawn
        funext r c
        exact updB_ep_restore pos.board mv.fromSq mv.toSq
          [sIdx mv.toSq 0, digitCh (digitNat '6' - 1)] 1 ((rcdOf pos mv).toPiece) 7
          hfne hfb htne htb (List.cons_ne_nil _ _) hcb hfv htv hcap r c
      · -- black en passant
        have hwt : pos.whiteToPlay = false := by
          have hh : pos.board rc.1 rc.2 = 7 := hfget.symm.trans hf7
          rw [← hcol, hh]
          decide
        rw [hwt] at hshape hpawn
        simp only [if_false, Bool.false_eq_true] at hshape hpawn
        have h13 : sIdx mv.toSq 1 = '3' := by
          rw [hshape]
          rfl
        have h8 : sIdx mv.toSq 1 ≠ '1' := by
          rw [h13]
          decide
        obtain ⟨hbb, hfl1, hfl2⟩ := boardPhase_board_epB pos mv hf7 ⟨hpe, hfile⟩ h8
        rw [undoB_epB (rcdOf pos mv) _ hfl1 hfl2 hf7,
          show (rcdOf pos mv).move.toSq = mv.toSq from rfl,
          show (rcdOf pos mv).move.fromSq = mv.fromSq from rfl,
          hbb, h13, show (rcdOf pos mv).fromPiece = 7 from hf7]
        have hrow : (squareToCoords mv.toSq).1 = 5 := by
          rw [hshape]
          rfl
        have htb : 0 ≤ (squareToCoords mv.toSq).1 ∧ (squareToCoords mv.toSq).1 < 8 ∧
            0 ≤ (squareToCoords mv.toSq).2 ∧ (squareToCoords mv.toSq).2 < 8 := by
          rw [hrow]
          exact ⟨by decide, by decide, hc0, hc8⟩
        have hcsq : squareToCoords [sIdx mv.toSq 0, digitCh (digitNat '3' + 1)] =
            ((4 : Int), (squareToCoords mv.toSq).2) := by
          refine Prod.ext_iff.mpr ⟨?_, rfl⟩
          show (8 : Int) - (digitNat (digitCh (digitNat '3' + 1)) : Int) = 4
          decide
        have hcb : 0 ≤ (squareToCoords [sIdx mv.toSq 0, digitCh (digitNat '3' + 1)]).1 ∧
            (squareToCoords [sIdx mv.toSq 0, digitCh (digitNat '3' + 1)]).1 < 8 ∧
            0 ≤ (squareToCoords [sIdx mv.toSq 0, digitCh (digitNat '3' + 1)]).2 ∧
            (squareToCoords [sIdx mv.toSq 0, digitCh (digitNat '3' + 1)]).2 < 8 := by
          rw [hcsq]
          exact ⟨by show (0 : Int) ≤ 4; decide, by show (4 : Int) < 8; decide, hc0, hc8⟩
        have hfv : (7 : Nat) = pos.board (squareToCoords mv.fromSq).1
            (squareToCoords mv.fromSq).2 := by
          rw [hfrom, hinv]
          exact (hfget.symm.trans hf7).symm
        have htv : (rcdOf pos mv).toPiece = pos.board (squareToCoords mv.toSq).1
            (squareToCoords mv.toSq).2 := by
          show getPiece pos mv.toSq = _
          rw [getPiece_eq, if_neg htne, if_pos htb]
        have hcap : pos.board
            (squareToCoords [sIdx mv.toSq 0, digitCh (digitNat '3' + 1)]).1
            (squareToCoords [sIdx mv.toSq 0, digitCh (digitNat '3' + 1)]).2 = 1 := by
          rw [hcsq]
          exact hpawn
        funext r c
        exact updB_ep_restore pos.board mv.fromSq mv.toSq
          [sIdx mv.toSq 0, digitCh (digitNat '3' + 1)] 7 ((rcdOf pos mv).toPiece) 1
          hfne hfb htne htb (List.cons_ne_nil _ _) hcb hfv htv hcap r c
    · obtain ⟨⟨x, hbb⟩, hfl1, hfl2⟩ := boardPhase_board_normal pos mv hcf' hec
      rw [undoB_normal (rcdOf pos mv) _ hfl1 hfl2, hbb]
      funext r c
      exact updB_normal_restore pos.board mv.fromSq mv.toSq
        (getPiece pos mv.fromSq) (getPiece pos mv.toSq) x
        (getPiece_eq pos mv.fromSq) (getPiece_eq pos mv.toSq) r c

/-- C1 (amended): applying a legal move with `make_move` and undoing
it reproduces the exact pre-move FEN in a non-terminal position whose
set castling-rights bits have their rooks on the corresponding corner
squares and whose en-passant field is engine-well-formed (target
behind the just-double-pushed pawn).  Without the rook-placement
hypotheses the claim is false: the castling generator never checks the
rook, and `make_move`'s castling block overwrites the corner square
with a rook that may not have been there (see the counterexample). -/
theorem c1_apply_undo_amended (pos : Position) (mv : Move) (b : Bool)
    (hov : (isGameOver pos).over = false)
    (hm : mv ∈ getMoves pos)
    (hcr1 : pos.castlingRights &&& 1 ≠ 0 → pos.board 7 7 = 2)
    (hcr2 : pos.castlingRights &&& 2 ≠ 0 → pos.board 7 0 = 2)
    (hcr4 : pos.castlingRights &&& 4 ≠ 0 → pos.board 0 7 = 8)
    (hcr8 : pos.castlingRights &&& 8 ≠ 0 → pos.board 0 0 = 8)
    (hepi : epInv pos) :
    getFen (undoMove (makeMove pos mv b).2) = getFen pos := by
  have hleg : b = true → ((getMoves pos).any fun m =>
      m.fromSq == mv.fromSq && m.toSq == mv.toSq) = true :=
    fun _ => List.any_eq_true.mpr ⟨mv, hm, by simp⟩
  rw [makeMove_applies pos mv b hov hleg]
  obtain ⟨hab, haw, hah⟩ := applyMove_fields pos mv
  have hgl : (applyMove pos mv).2.moveHistory.getLast? = some (rcdOf pos mv) := by
    rw [hah]
    exact List.getLast?_concat _
  obtain ⟨hub, huw, hucr, huep, huh, huf⟩ :=
    undoMove_fields (applyMove pos mv).2 (rcdOf pos mv) hgl
  apply getFen_congr
  · rw [hub, hab]
    exact applyUndo_board pos mv hm hcr1 hcr2 hcr4 hcr8 hepi
  · rw [huw, haw, Bool.not_not]
  · exact hucr
  · exact huep
  · exact huh
  · exact huf

/-- C1 witness: a concrete quiet pawn move applied and undone through
the amended theorem. -/
theorem c1_apply_undo_amended_witness :
    (isGameOver (loadFen (strL "k7/8/8/8/8/8/4P3/K7 w - - 0 1"))).over = false ∧
    (⟨strL "E2", strL "E3", none⟩ : Move) ∈
      getMoves (loadFen (strL "k7/8/8/8/8/8/4P3/K7 w - - 0 1")) ∧
    getFen (undoMove (makeMove (loadFen (strL "k7/8/8/8/8/8/4P3/K7 w - - 0 1"))
        ⟨strL "E2", strL "E3", none⟩ true).2) =
      getFen (loadFen (strL "k7/8/8/8/8/8/4P3/K7 w - - 0 1")) :=
  ⟨by decide, by decide,
    c1_apply_undo_amended (loadFen (strL "k7/8/8/8/8/8/4P3/K7 w - - 0 1"))
      ⟨strL "E2", strL "E3", none⟩ true (by decide) (by decide) (by decide)
      (by decide) (by decide) (by decide) (by decide)⟩

/-- C1 counterexample: in this position the white kingside castling
bit is set but the corner holds a knight, not a rook.  The generator
includes E1-G1 anyway (it never checks the rook), `make_move` writes a
rook onto F1 and clears H1, and `undo_move` puts a rook (not the
knight) back on H1: the FEN after apply+undo differs from the original,
refuting the unconditional claim. -/
theorem c1_apply_undo_counterexample :
    (isGameOver (loadFen (strL "k7/p7/8/8/8/8/8/4K2N w K - 0 1"))).over = false ∧
    (⟨strL "E1", strL "G1", none⟩ : Move) ∈
      getMoves (loadFen (strL "k7/p7/8/8/8/8/8/4K2N w K - 0 1")) ∧
    getFen (undoMove (makeMove (loadFen (strL "k7/p7/8/8/8/8/8/4K2N w K - 0 1"))
        ⟨strL "E1", strL "G1", none⟩ true).2) ≠
      getFen (loadFen (strL "k7/p7/8/8/8/8/8/4K2N w K - 0 1")) := by
  refine ⟨by decide, by decide, by decide⟩
